import Mathlib

/-!
Verification of the batched remote-metadata engine of lldb-objc.

Strings from the target process are modelled as `List Char` restricted to
ASCII: the Python layer decodes target bytes as UTF-8, which is the identity
on the ASCII fragment used by runtime class and selector names.
-/

namespace LldbObjc

/-- Target strings (ASCII byte strings). -/
abbrev Str := List Char

/-- NUL terminator byte. -/
def nulChar : Char := Char.ofNat 0

/-- Newline character. -/
def newlineChar : Char := Char.ofNat 10

/-- Double-quote character. -/
def quoteChar : Char := Char.ofNat 34

/-- Backslash character. -/
def backslashChar : Char := Char.ofNat 92

/-- First index where `p` holds. -/
def findIdxL (p : Char → Bool) : List Char → Option Nat
  | [] => none
  | c :: rest => if p c then some 0 else (findIdxL p rest).map (· + 1)

/-- Does `pre` occur at the head of `s`?  (Python `str.startswith`.) -/
def startsWithL : Str → Str → Bool
  | [], _ => true
  | _ :: _, [] => false
  | a :: xs, b :: ys => a == b && startsWithL xs ys

/-- Contiguous-substring test (Python `needle in hay`). -/
def containsSubL (needle : Str) : Str → Bool
  | [] => needle.isEmpty
  | c :: rest => startsWithL needle (c :: rest) || containsSubL needle rest

/-- First index `≥ start` holding `c` (Python `str.find(c, start)`), if any. -/
def findCharFrom (c : Char) (l : Str) (start : Nat) : Option Nat :=
  match findIdxL (· = c) (l.drop start) with
  | some k => some (start + k)
  | none => none

/-- Scan helper for `findSubFrom`. -/
def findSubAux (needle : Str) : Str → Nat → Option Nat
  | [], i => if needle = [] then some i else none
  | c :: rest, i =>
      if startsWithL needle (c :: rest) then some i else findSubAux needle rest (i + 1)

/-- First index `≥ start` where `needle` occurs (Python `str.find(sub, start)`). -/
def findSubFrom (needle : Str) (l : Str) (start : Nat) : Option Nat :=
  (findSubAux needle (l.drop start) 0).map (start + ·)

/-- Last index holding `c` (Python `str.rfind`), if any. -/
def lastIdxOf (c : Char) (l : Str) : Option Nat :=
  match findIdxL (· = c) l.reverse with
  | some k => some (l.length - 1 - k)
  | none => none

/-- Fueled scan for `pyReplace`; every step consumes at least one input
    character, so fuel equal to the input length never runs out. -/
def pyReplaceF (pat rep : Str) : Nat → Str → Str
  | _, [] => []
  | 0, s => s
  | fuel + 1, c :: rest =>
      if pat = [] then c :: rest
      else if startsWithL pat (c :: rest) then
        rep ++ pyReplaceF pat rep fuel ((c :: rest).drop pat.length)
      else
        c :: pyReplaceF pat rep fuel rest

/-- Python `str.replace(pat, rep)`: leftmost, non-overlapping. -/
def pyReplace (pat rep : Str) (s : Str) : Str := pyReplaceF pat rep s.length s

/-- Python slice `xs[a:b]` where `a ≥ 0` and `b` may be negative. -/
def pySliceClamp (xs : Str) (a : Nat) (b : Int) : Str :=
  let n : Int := xs.length
  let bb : Nat := (if b < 0 then max 0 (n + b) else min b n).toNat
  (xs.take bb).drop a

/-- Python `' '.join(words)`. -/
def joinSpace : List Str → Str
  | [] => []
  | [w] => w
  | w :: x :: rest => w ++ ' ' :: joinSpace (x :: rest)

/-- Fueled chunking for `splitIntoBatches`; every step consumes at least
    one element, so fuel equal to the list length never runs out. -/
def splitIntoBatchesF (bs : Nat) : Nat → List Nat → List (List Nat)
  | _, [] => []
  | 0, _ => []
  | fuel + 1, x :: xs =>
      if bs = 0 then []
      else (x :: xs).take bs :: splitIntoBatchesF bs fuel ((x :: xs).drop bs)

/-- Partition a list into consecutive chunks of `bs` elements
    (the `range(0, n, batch_size)` loops). Empty for a zero step. -/
def splitIntoBatches (bs : Nat) (l : List Nat) : List (List Nat) :=
  splitIntoBatchesF bs l.length l

namespace ObjcUtils

/-- Embeds `objc_utils.unquote_string`: remove exactly one pair of double
    quotes and unescape internal `\"` sequences. -/
def unquote_string (s : LldbObjc.Str) : LldbObjc.Str :=
  if 2 ≤ s.length ∧ s.head? = some quoteChar ∧ s.getLast? = some quoteChar then
    pyReplace [backslashChar, quoteChar] [quoteChar] ((s.drop 1).dropLast)
  else s

/-- Escape double quotes with backslashes (the relevant fragment of how the
    debugger renders a C string summary). -/
def escQuotes : LldbObjc.Str → LldbObjc.Str
  | [] => []
  | c :: rest =>
      (if c = quoteChar then [backslashChar, quoteChar] else [c]) ++ escQuotes rest

/-- The `GetSummary()` rendering of a C string value: the raw characters
    wrapped in double quotes, internal quotes escaped. -/
def pyQuote (s : LldbObjc.Str) : LldbObjc.Str :=
  quoteChar :: escQuotes s ++ [quoteChar]

end ObjcUtils

namespace BufferCodec

/-- The absent-slot sentinel 0xFFFFFFFF. -/
def sentinel : Nat := 4294967295

/-- Per-item heap estimate of `build_batch_expression`:
    `string_estimate = 40 * batch_size`. -/
def stringEstimate (n : Nat) : Nat := 40 * n

/-- Embeds the C loop emitted by `build_batch_expression` (objc_cls.py).
    Each item is `none` for a null class pointer or a NULL `class_getName`
    result (offset slot 0xFFFFFFFF), otherwise the name's bytes.  A present
    name is copied (with its NUL terminator) only when
    `current_offset + len < string_estimate`; the offset slot is written
    unconditionally, exactly as in the generated code.  Returns the offset
    table (with the trailing total-length slot) and the string heap. -/
def encodeItems (est : Nat) (cur : Nat) : List (Option Str) → List Nat × Str
  | [] => ([cur], [])
  | none :: rest =>
      let r := encodeItems est cur rest
      (sentinel :: r.1, r.2)
  | some nm :: rest =>
      let len := nm.length + 1
      if cur + len < est then
        let r := encodeItems est (cur + len) rest
        (cur :: r.1, (nm ++ [nulChar]) ++ r.2)
      else
        let r := encodeItems est cur rest
        (cur :: r.1, r.2)

/-- `build_batch_expression` applied to a whole batch. -/
def encode (items : List (Option Str)) : List Nat × Str :=
  encodeItems (stringEstimate items.length) 0 items

/-- `bytes.find(b'\0', off)` on the string heap. -/
def findNulFrom (heap : Str) (off : Nat) : Option Nat :=
  match findIdxL (· = nulChar) (heap.drop off) with
  | some k => some (off + k)
  | none => none

/-- Embeds the item loop of `read_consolidated_string_buffer`.  The walk
    carries the offset table suffix starting at the current item; the table
    has one trailing entry (the total length), so iteration stops when only
    that entry remains.  `keep` is the pattern filter applied before
    appending (`pattern is None or matches_pattern(...)`). -/
def decodeLoop (keep : Str → Bool) (heap : Str) : List Nat → List Str
  | o :: r1 :: rest =>
      if o = sentinel then decodeLoop keep heap (r1 :: rest)
      else
        let nextOpt : Option Nat :=
          if rest ≠ [] ∧ r1 ≠ sentinel then some r1
          else
            match findNulFrom heap o with
            | some p => some (p + 1)
            | none => none
        match nextOpt with
        | none => decodeLoop keep heap (r1 :: rest)
        | some next =>
            let nm := pySliceClamp heap o ((next : Int) - 1)
            if keep nm then nm :: decodeLoop keep heap (r1 :: rest)
            else decodeLoop keep heap (r1 :: rest)
  | _ => []

/-- The trivial filter (`pattern=None`). -/
def trueKeep : Str → Bool := fun _ => true

/-- Embeds `read_consolidated_string_buffer` under successful memory reads:
    the offset table and the heap (whose length is the final offset entry)
    have been read, and the items are sliced out locally.  UTF-8 decoding is
    the identity on the ASCII model. -/
def readConsolidatedStringBuffer (offsets : List Nat) (heap : Str)
    (keep : Str → Bool) : List Str :=
  decodeLoop keep heap offsets

/-- The first offset written for an item list starting at heap offset `cur`. -/
def headOffset (cur : Nat) : List (Option Str) → Nat
  | [] => cur
  | none :: _ => sentinel
  | some _ :: _ => cur

/-- Cumulative null-terminated size of the present items. -/
def presentSize : List (Option Str) → Nat
  | [] => 0
  | none :: rest => presentSize rest
  | some nm :: rest => nm.length + 1 + presentSize rest

/-- Does every present item fit the heap estimate at its turn?  (The guard
    `current_offset + len < string_estimate` succeeds at every copy.) -/
def fits (est : Nat) : Nat → List (Option Str) → Bool
  | _, [] => true
  | cur, none :: rest => fits est cur rest
  | cur, some nm :: rest =>
      decide (cur + (nm.length + 1) < est) && fits est (cur + (nm.length + 1)) rest

/-- No present item contains a NUL byte (C strings cannot). -/
def itemsNulFree (items : List (Option Str)) : Bool :=
  items.all fun it =>
    match it with
    | none => true
    | some nm => nm.all (· ≠ nulChar)

end BufferCodec

namespace PatternMatch

/-- Token of the regex produced from a wildcard pattern by
    `re.escape` + `\*`→`.*`, `\?`→`.`: every other character is an escaped
    literal. -/
inductive GlobTok where
  | star
  | anyOne
  | lit (c : Char)
deriving DecidableEq

/-- Translate a pattern to its token list.  `re.escape` escapes each
    character separately and no escape ends in `*` or `?`, so the later
    `replace` calls hit exactly the pattern's own `*` and `?` characters. -/
def tokenize (p : Str) : List GlobTok :=
  p.map fun c => if c = '*' then GlobTok.star else if c = '?' then GlobTok.anyOne else GlobTok.lit c

/-- Case-insensitive character comparison (`re.IGNORECASE`). -/
def lowEq (a b : Char) : Bool := a.toLower == b.toLower

/-- Match the anchored regex `^tokens$` against `s` under Python `re`
    semantics: `.` never matches a newline, and the final `$` also accepts a
    single trailing newline.  Matching is pure existence, so the
    backtracking order is irrelevant.  Fueled scan. -/
def matchTokensF : Nat → List GlobTok → Str → Bool
  | _, [], [] => true
  | _, [], c :: rest => c == newlineChar && rest.isEmpty
  | fuel + 1, GlobTok.star :: ts, cs =>
      matchTokensF fuel ts cs ||
        (match cs with
         | c :: cs2 => !(c == newlineChar) && matchTokensF fuel (GlobTok.star :: ts) cs2
         | [] => false)
  | fuel + 1, GlobTok.anyOne :: ts, c :: cs => !(c == newlineChar) && matchTokensF fuel ts cs
  | fuel + 1, GlobTok.lit a :: ts, c :: cs => lowEq a c && matchTokensF fuel ts cs
  | _, _ :: _, [] => false
  | 0, _ :: _, _ :: _ => false

/-- Anchored match; each recursion of the fueled scan shrinks the token
    count plus character count by at least one, so this fuel suffices. -/
def matchTokens (ts : List GlobTok) (cs : Str) : Bool :=
  matchTokensF (ts.length + cs.length) ts cs

/-- Embeds `objc_cls.matches_pattern`: wildcard patterns go through the
    compiled regex, everything else is case-sensitive equality.  The
    `re.error` fallback is dead code: the regex built from an escaped
    pattern always compiles. -/
def matchesPatternCls (className : Str) (pattern : Option Str) : Bool :=
  match pattern with
  | none => true
  | some p =>
      if p.contains '*' || p.contains '?' then matchTokens (tokenize p) className
      else className == p

/-- Embeds `objc_classes.matches_pattern` (same code in
    scripts/objc_sel.py): wildcard patterns go through the compiled regex,
    everything else is case-insensitive substring containment. -/
def matchesPatternSubstr (className : Str) (pattern : Option Str) : Bool :=
  match pattern with
  | none => true
  | some p =>
      if p.contains '*' || p.contains '?' then matchTokens (tokenize p) className
      else containsSubL (p.map Char.toLower) (className.map Char.toLower)

end PatternMatch

namespace TypeEncoding

/-- The qualifier characters stripped by `decode_type_encoding`. -/
def isQualChar (c : Char) : Bool :=
  c = 'r' || c = 'n' || c = 'N' || c = 'o' || c = 'O' || c = 'R' || c = 'V'

/-- The word each qualifier maps to. -/
def qualWord (c : Char) : Str :=
  if c = 'r' then ("const").toList
  else if c = 'n' then ("in").toList
  else if c = 'N' then ("inout").toList
  else if c = 'o' then ("out").toList
  else if c = 'O' then ("bycopy").toList
  else if c = 'R' then ("byref").toList
  else ("oneway").toList

/-- The fixed primitive table (`type_map`), consulted on the whole
    remaining encoding. -/
def typeMapLookup (r : Str) : Option Str :=
  if r = ("c").toList then some (("char").toList)
  else if r = ("i").toList then some (("int").toList)
  else if r = ("s").toList then some (("short").toList)
  else if r = ("l").toList then some (("long").toList)
  else if r = ("q").toList then some (("long long").toList)
  else if r = ("C").toList then some (("unsigned char").toList)
  else if r = ("I").toList then some (("unsigned int").toList)
  else if r = ("S").toList then some (("unsigned short").toList)
  else if r = ("L").toList then some (("unsigned long").toList)
  else if r = ("Q").toList then some (("unsigned long long").toList)
  else if r = ("f").toList then some (("float").toList)
  else if r = ("d").toList then some (("double").toList)
  else if r = ("B").toList then some (("BOOL").toList)
  else if r = ("v").toList then some (("void").toList)
  else if r = ("*").toList then some (("char *").toList)
  else if r = ("@").toList then some (("id").toList)
  else if r = ("@?").toList then some (("block").toList)
  else if r = ("#").toList then some (("Class").toList)
  else if r = (":").toList then some (("SEL").toList)
  else if r = ("?").toList then some (("?").toList)
  else none

/-- Python `str.find` with the -1-absent convention. -/
def pyFind (c : Char) (r : Str) : Int :=
  match findCharFrom c r 0 with
  | some k => (k : Int)
  | none => -1

/-- The `@"ClassName"` result: angle-bracketed names become `id<Name>`. -/
def protoWrap (className : Str) : Str :=
  if className.head? = some '<' ∧ className.getLast? = some '>' then
    ("id<").toList ++ (className.drop 1).dropLast ++ [('>')]
  else className

/-- Embeds `decode_type_encoding` (objc_cls.py).  `decAux true s` is the
    full function; `decAux false r` is its branch chain after the qualifier
    strip (every branch of the source computes a result and appends the
    qualifier words in front, so the function factors through this form).
    Array-parse and union-without-`=` failures fall through past the
    remaining `startswith` checks, which cannot match, to the
    return-as-is case. -/
def decAux : Bool → Str → Str
  | true, s =>
      if s = [] then ("?").toList
      else
        let quals := (s.takeWhile isQualChar).map qualWord
        let r := s.dropWhile isQualChar
        let body := decAux false r
        if quals = [] then body else joinSpace quals ++ ' ' :: body
  | false, r =>
      if startsWithL ['@', quoteChar] r then
        let endIdx0 : Int :=
          match lastIdxOf quoteChar r with
          | some k => (k : Int)
          | none => -1
        let endIdx : Nat := if endIdx0 ≤ 2 then r.length else endIdx0.toNat
        protoWrap ((r.take endIdx).drop 2)
      else if startsWithL ['@', backslashChar, quoteChar] r then
        let endIdx : Nat :=
          match findSubFrom [backslashChar, quoteChar] r 3 with
          | some k => k
          | none =>
            match findCharFrom quoteChar r 3 with
            | some k => k
            | none => r.length
        protoWrap ((r.take endIdx).drop 3)
      else
        match typeMapLookup r with
        | some w => w
        | none =>
          if h : startsWithL [('^')] r then
            decAux true (r.drop 1) ++ (" *").toList
          else if h2 : startsWithL [('[')] r then
            let endB := pyFind (']') r
            if hb : 0 < endB then
              let inner := (r.take endB.toNat).drop 1
              let countS := inner.takeWhile Char.isDigit
              if countS ≠ [] then
                decAux true (inner.drop countS.length) ++ ('[') :: countS ++ [(']')]
              else r
            else r
          else if startsWithL [('{')] r then
            let endEq := pyFind ('=') r
            if 0 < endEq then ("struct ").toList ++ (r.take endEq.toNat).drop 1
            else
              let endBr := pyFind ('}') r
              if 0 < endBr then ("struct ").toList ++ (r.take endBr.toNat).drop 1
              else r
          else if startsWithL [('(')] r then
            let endEq := pyFind ('=') r
            if 0 < endEq then ("union ").toList ++ (r.take endEq.toNat).drop 1
            else r
          else if startsWithL [('b')] r then
            let num := r.drop 1
            num ++ (if num = [('1')] then (" bit").toList else (" bits").toList)
          else r
  termination_by b s => (s.length, if b then 1 else 0)
  decreasing_by
    · have hle : (List.dropWhile isQualChar s).length ≤ s.length :=
        (List.dropWhile_sublist isQualChar).length_le
      rcases Nat.lt_or_ge (List.dropWhile isQualChar s).length s.length with hlt | hge
      · exact Prod.Lex.left _ _ hlt
      · have heq : (List.dropWhile isQualChar s).length = s.length := by omega
        rw [heq]
        exact Prod.Lex.right _ (by decide)
    · apply Prod.Lex.left
      have hr : r ≠ [] := by
        cases r with
        | nil => simp [startsWithL] at h
        | cons a b => simp
      cases r with
      | nil => exact absurd rfl hr
      | cons a b => simp
    · apply Prod.Lex.left
      have hr : r ≠ [] := by
        cases r with
        | nil => simp [startsWithL] at h2
        | cons a b => simp
      have h1 : ((r.take (pyFind (']') r).toNat).drop 1).length < r.length := by
        cases r with
        | nil => exact absurd rfl hr
        | cons a b =>
          simp only [List.length_drop, List.length_take, List.length_cons]
          omega
      have h2' : (((r.take (pyFind (']') r).toNat).drop 1).drop
          (((r.take (pyFind (']') r).toNat).drop 1).takeWhile Char.isDigit).length).length
          ≤ ((r.take (pyFind (']') r).toNat).drop 1).length := by
        simp only [List.length_drop]
        omega
      omega

/-- `decode_type_encoding` itself. -/
def decode_type_encoding (s : Str) : Str := decAux true s

end TypeEncoding

namespace ObjcUtils

/-- Python `\w` on the ASCII fragment: `[A-Za-z0-9_]`. -/
def isWordChar (c : Char) : Bool :=
  let k := c.toNat
  (48 ≤ k && k ≤ 57) || (65 ≤ k && k ≤ 90) || (97 ≤ k && k ≤ 122) || k == 95

/-- Python `\s` on the ASCII fragment: space, `\t\n\r\f\v`. -/
def isSpaceChar (c : Char) : Bool :=
  let k := c.toNat
  k == 32 || k == 9 || k == 10 || k == 13 || k == 12 || k == 11

/-- Deterministic implementation of the Python regex match
    `re.match(r'^[+-]\[(\w+)\s+(.+)\]$', s)` with its two captures.
    The word and whitespace classes are disjoint, so `\w+` is the maximal
    word run; `$` also matches just before one trailing newline, so the
    regex `]` is the last character of the (newline-stripped) input; the
    greedy `\s+` takes the maximal whitespace run, backing off to leave one
    character for `(.+)` when everything up to `]` is whitespace, and `.`
    never matches a newline. -/
def parseBody (body : Str) : Option (Str × Str) :=
  let cls := body.takeWhile isWordChar
  if cls = [] then none
  else
    let rest2 := body.drop cls.length
    let w := rest2.takeWhile isSpaceChar
    let r0 := rest2.drop w.length
    if w = [] then none
    else if r0 ≠ [] then
      if r0.contains newlineChar then none else some (cls, r0)
    else
      match rest2.getLast? with
      | some c =>
          if 2 ≤ rest2.length ∧ c ≠ newlineChar then some (cls, [c]) else none
      | none => none

/-- The bracket/sign layer of the same regex: `parseBody` handles the span
    between `[` and the final `]`. -/
def parseMethodSymbol (s : Str) : Option (Str × Str) :=
  match s with
  | sign :: br :: rest =>
      if (sign == '+' || sign == '-') && br == '[' then
        let core := if rest.getLast? = some newlineChar then rest.dropLast else rest
        if core.getLast? = some (']') then parseBody core.dropLast
        else none
      else none
  | _ => none

/-- Embeds `objc_utils._extract_inherited_class`: parse the symbol as an
    Objective-C method symbol; report the parsed class when it differs from
    the requested class and the parsed selector matches. -/
def extractInheritedClass (symbolName requestedClass selector : Str) : Option Str :=
  match parseMethodSymbol symbolName with
  | some (symClass, symSel) =>
      if symClass ≠ requestedClass then
        if symSel = selector then some symClass else none
      else none
  | none => none

/-- The forwarding-stub marker tested by `'msgForward' in symbol_name`. -/
def msgForwardMarker : Str := ("msgForward").toList

/-- Embeds step 5 of `resolve_method_address` (the classification of a
    nonzero implementation address from its symbol name): a symbol matching
    the forwarding marker is reported as a failure with address 0; otherwise
    the address is returned together with the inherited-from annotation.
    Result: (reported address, inherited-from class, failed). -/
def resolveStep5 (impAddr : Nat) (requestedClass selector : Str)
    (symbolName : Option Str) : Nat × Option Str × Bool :=
  match symbolName with
  | some sn =>
      if containsSubL msgForwardMarker sn then (0, none, true)
      else (impAddr, extractInheritedClass sn requestedClass selector, false)
  | none => (impAddr, none, false)

/-- Declarative reading of "the symbol parses as `[+-][C selector]`" with
    capture `R`: the unique decomposition the greedy regex produces.  The
    last condition pins the `\s+`/`(.+)` boundary: the capture starts with a
    non-space character unless the whole span before `]` is whitespace, in
    which case the capture is the single final character. -/
def MethodSymbolDecomp (s C R : Str) : Prop :=
  ∃ sign W tail,
    (sign = '+' ∨ sign = '-') ∧
    s = sign :: ('[') :: (C ++ W ++ R ++ (']') :: tail) ∧
    (tail = [] ∨ tail = [newlineChar]) ∧
    C ≠ [] ∧ (∀ c ∈ C, isWordChar c) ∧
    W ≠ [] ∧ (∀ c ∈ W, isSpaceChar c) ∧
    R ≠ [] ∧ newlineChar ∉ R ∧
    (∀ c t, R = c :: t → isSpaceChar c → t = [])

end ObjcUtils

namespace ObjcCls

/-- A `_class_cache` entry: the class-name list and total count stored for
    one process (the wall-clock timestamp is not statable). -/
structure CacheEntry where
  classes : List Str
  count : Nat
deriving DecidableEq

/-- The per-process class cache `_class_cache`. -/
def Cache := Nat → Option CacheEntry

/-- Result of `get_all_classes`: the declared
    `(class_names, timing, class_count, from_cache)` tuple (the timing dict
    is wall-clock metadata, omitted; expression counts relevant to the fast
    path are returned by `try_exact_class_match`), or the bare list the
    error paths return instead of the declared shape. -/
inductive GResult where
  | tup (names : List Str) (count : Nat) (fromCache : Bool)
  | bare (names : List Str)
deriving DecidableEq

/-- Outcomes of the remote bridge calls one `get_all_classes` run makes. -/
structure ClsEnv where
  /-- `NSClassFromString` evaluation: `none` an evaluation error, `some 0`
      class not found. -/
  nsClassFromString : Str → Option Nat
  /-- the C string `class_getName` yields for a class pointer (`none` for a
      NULL result; summaries of it are its quoted rendering). -/
  rawName : Nat → Option Str
  /-- the count-variable malloc evaluation succeeds -/
  countVarOk : Bool
  /-- the `objc_copyClassList` evaluation succeeds -/
  copyListOk : Bool
  /-- the count read-back evaluation succeeds -/
  readCountOk : Bool
  /-- the bulk pointer-array memory read succeeds -/
  bulkReadOk : Bool
  /-- the class pointers the bulk read yields; the count the runtime wrote
      equals their number, since the read unpacks exactly `count` words -/
  classPtrs : List Nat
  /-- does the compound expression of batch number `i` evaluate? -/
  batchEvalOk : Nat → Bool

/-- Embeds `try_exact_class_match`: resolve via `NSClassFromString`,
    confirm via `class_getName`.  Returns the confirmed name (if any) and
    the number of expression evaluations performed. -/
def try_exact_class_match (env : ClsEnv) (className : Str) : Option Str × Nat :=
  match env.nsClassFromString className with
  | none => (none, 1)
  | some classPtr =>
      if classPtr = 0 then (none, 1)
      else
        match (env.rawName classPtr).map ObjcUtils.pyQuote with
        | none => (none, 2)
        | some summary =>
            if summary ≠ [] then
              let actual := ObjcUtils.unquote_string summary
              if actual = className then (some actual, 2) else (none, 2)
            else (none, 2)

/-- The items one batch feeds to `build_batch_expression`'s generated code:
    null pointers and NULL names become absent slots. -/
def batchItems (env : ClsEnv) (b : List Nat) : List (Option Str) :=
  b.map fun p => if p = 0 then none else env.rawName p

/-- The per-item fallback of `get_all_classes` when a batch expression
    fails: one `class_getName` evaluation per non-null pointer, appended
    unfiltered. -/
def fallbackNames (env : ClsEnv) (b : List Nat) : List Str :=
  b.filterMap fun p =>
    if p = 0 then none
    else
      match (env.rawName p).map ObjcUtils.pyQuote with
      | none => none
      | some summary =>
          if summary ≠ [] then some (ObjcUtils.unquote_string summary) else none

/-- The batch loop of `get_all_classes`: each batch goes through the
    consolidated buffer (read with `pattern=None`), or through the per-item
    fallback when its compound expression fails. -/
def runBatches (env : ClsEnv) : Nat → List (List Nat) → List Str
  | _, [] => []
  | idx, b :: rest =>
      (if env.batchEvalOk idx then
        BufferCodec.readConsolidatedStringBuffer
          (BufferCodec.encode (batchItems env b)).1
          (BufferCodec.encode (batchItems env b)).2 BufferCodec.trueKeep
      else fallbackNames env b)
      ++ runBatches env (idx + 1) rest

/-- The `if pattern:` filter applied to cached or fresh results (an empty
    pattern string is falsy and filters nothing). -/
def filterByPattern (pattern : Option Str) (names : List Str) : List Str :=
  match pattern with
  | some p =>
      if p ≠ [] then names.filter fun c => PatternMatch.matchesPatternCls c (some p)
      else names
  | none => names

/-- The cache-miss enumeration of `get_all_classes` (objc_cls.py): each
    failing bridge step returns the bare `[]` of the source's error paths;
    on success the unfiltered names and total count are stored under the
    process id and the filtered copy is returned with `from_cache=False`. -/
def enumerateClasses (env : ClsEnv) (pattern : Option Str) (bs : Nat)
    (cache : Cache) (pid : Nat) : GResult × Cache :=
  if env.countVarOk = false then (GResult.bare [], cache)
  else if env.copyListOk = false then (GResult.bare [], cache)
  else if env.readCountOk = false then (GResult.bare [], cache)
  else if env.bulkReadOk = false then (GResult.bare [], cache)
  else
    let classNames := runBatches env 0 (splitIntoBatches bs env.classPtrs)
    let classCount := env.classPtrs.length
    let cache2 : Cache := fun q => if q = pid then some ⟨classNames, classCount⟩ else cache q
    (GResult.tup (filterByPattern pattern classNames) classCount false, cache2)

/-- The cache lookup of `get_all_classes`: a hit (entry present and no
    forced reload) filters the stored list and reports `from_cache=True`. -/
def mainLookup (env : ClsEnv) (pattern : Option Str) (forceReload : Bool)
    (bs : Nat) (cache : Cache) (pid : Nat) : GResult × Cache :=
  match forceReload, cache pid with
  | false, some entry =>
      (GResult.tup (filterByPattern pattern entry.classes) entry.count true, cache)
  | _, _ => enumerateClasses env pattern bs cache pid

/-- Embeds `get_all_classes` (objc_cls.py): a non-empty wildcard-free
    pattern takes the exact-match fast path before any cache or runtime
    work; everything else consults the cache and enumerates on a miss. -/
def get_all_classes (env : ClsEnv) (pattern : Option Str) (forceReload : Bool)
    (bs : Nat) (cache : Cache) (pid : Nat) : GResult × Cache :=
  match pattern with
  | some p =>
      if p ≠ [] ∧ ¬(p.contains '*' || p.contains '?') then
        match (try_exact_class_match env p).1 with
        | some nm => (GResult.tup [nm] 1 false, cache)
        | none => (GResult.tup [] 0 false, cache)
      else mainLookup env pattern forceReload bs cache pid
  | none => mainLookup env pattern forceReload bs cache pid

/-- The `--clear-cache` handling of `find_objc_classes`: delete the entry
    of the current process id. -/
def clearCache (pid : Nat) (cache : Cache) : Cache :=
  fun q => if q = pid then none else cache q

/-- Does this pattern reach the cache logic of `get_all_classes`?
    Non-empty wildcard-free patterns are diverted to the exact-match fast
    path instead. -/
def consultsCache (pattern : Option Str) : Bool :=
  match pattern with
  | none => true
  | some p => p.isEmpty || p.contains '*' || p.contains '?'

/-- The caller-side unpacking
    `class_names, timing, class_count, from_cache = get_all_classes(...)`
    in `find_objc_classes`: a bare list from the error paths has length 0,
    not 4, so the unpacking raises ValueError (modelled as `none`). -/
def unpack_get_all_classes : GResult → Option (List Str × Nat × Bool)
  | GResult.tup names count fromCache => some (names, count, fromCache)
  | GResult.bare _ => none

end ObjcCls

namespace ObjcClasses

/-- Python `strip('"')`: remove every leading and trailing quote. -/
def pyStripQuotes (s : Str) : Str :=
  ((s.dropWhile (· = quoteChar)).reverse.dropWhile (· = quoteChar)).reverse

/-- The per-item fallback of the legacy `objc_classes.get_all_classes`:
    unlike objc_cls.py it pattern-filters before appending and unquotes
    with `strip('"')`. -/
def fallbackNamesLegacy (env : ObjcCls.ClsEnv) (pattern : Option Str)
    (b : List Nat) : List Str :=
  b.filterMap fun p =>
    if p = 0 then none
    else
      match (env.rawName p).map ObjcUtils.pyQuote with
      | none => none
      | some summary =>
          if summary ≠ [] then
            let nm := pyStripQuotes summary
            if PatternMatch.matchesPatternSubstr nm pattern then some nm else none
          else none

/-- The batch loop of the legacy `objc_classes.get_all_classes`: the
    consolidated buffer is read WITH the pattern filter. -/
def runBatchesLegacy (env : ObjcCls.ClsEnv) (pattern : Option Str) :
    Nat → List (List Nat) → List Str
  | _, [] => []
  | idx, b :: rest =>
      (if env.batchEvalOk idx then
        BufferCodec.readConsolidatedStringBuffer
          (BufferCodec.encode (ObjcCls.batchItems env b)).1
          (BufferCodec.encode (ObjcCls.batchItems env b)).2
          (fun nm => PatternMatch.matchesPatternSubstr nm pattern)
      else fallbackNamesLegacy env pattern b)
      ++ runBatchesLegacy env pattern (idx + 1) rest

/-- The `if pattern:` filter of objc_classes.py (substring matcher). -/
def filterByPatternSubstr (pattern : Option Str) (names : List Str) : List Str :=
  match pattern with
  | some p =>
      if p ≠ [] then names.filter fun c => PatternMatch.matchesPatternSubstr c (some p)
      else names
  | none => names

/-- Embeds the legacy `objc_classes.get_all_classes` (no fast path): on a
    cache miss it enumerates with the pattern threaded into each batch read
    and stores the accumulated (already filtered) list under the process
    id, despite the source comment "Store in cache (unfiltered list)". -/
def get_all_classes_legacy (env : ObjcCls.ClsEnv) (pattern : Option Str)
    (forceReload : Bool) (bs : Nat) (cache : ObjcCls.Cache) (pid : Nat) :
    ObjcCls.GResult × ObjcCls.Cache :=
  match forceReload, cache pid with
  | false, some entry =>
      (ObjcCls.GResult.tup (filterByPatternSubstr pattern entry.classes) entry.count true,
       cache)
  | _, _ =>
      if env.countVarOk = false then (ObjcCls.GResult.bare [], cache)
      else if env.copyListOk = false then (ObjcCls.GResult.bare [], cache)
      else if env.readCountOk = false then (ObjcCls.GResult.bare [], cache)
      else if env.bulkReadOk = false then (ObjcCls.GResult.bare [], cache)
      else
        let classNames := runBatchesLegacy env pattern 0 (splitIntoBatches bs env.classPtrs)
        let classCount := env.classPtrs.length
        let cache2 : ObjcCls.Cache :=
          fun q => if q = pid then some ⟨classNames, classCount⟩ else cache q
        (ObjcCls.GResult.tup (filterByPatternSubstr pattern classNames) classCount false,
         cache2)

end ObjcClasses

namespace ObjcSel

/-- Outcomes of the remote calls one method enumeration makes
    (scripts/objc_sel.py). -/
structure SelEnv where
  /-- the count-variable malloc evaluation succeeds -/
  countVarOk : Bool
  /-- the `class_copyMethodList` evaluation succeeds -/
  copyMethodListOk : Bool
  /-- the method-list pointer value it returns -/
  methodListPtr : Nat
  /-- the count read-back evaluation succeeds -/
  readCountOk : Bool
  /-- the bulk pointer-array memory read succeeds -/
  bulkReadOk : Bool
  /-- the method pointers the bulk read yields (the count equals their
      number, since the read unpacks exactly `count` words) -/
  methodPtrs : List Nat
  /-- the C string behind `sel_getName(method_getName(m))` (`none` for a
      NULL pointer result) -/
  selRaw : Nat → Option Str
  /-- `method_getImplementation(m)` -/
  impOf : Nat → Nat
  /-- the legacy per-index element expression evaluates -/
  elemEvalOk : Nat → Bool
  /-- the per-method selector-name expression evaluates -/
  selEvalOk : Nat → Bool
  /-- the per-method IMP expression result is valid -/
  impEvalOk : Nat → Bool
  /-- batch number `i`'s compound expression evaluates -/
  batchEvalOk : Nat → Bool
  /-- batch number `i`'s in-target `malloc` returned non-NULL -/
  batchMallocNonzero : Nat → Bool
  /-- the info-array memory read of batch `i` succeeds -/
  ptrReadOk : Nat → Bool
  /-- the `ReadCStringFromMemory` of method `m`'s selector succeeds -/
  cstrReadOk : Nat → Bool

/-- One item of a successful batched read in `get_methods_optimized`: null
    method pointers produce a zero selector pointer and are skipped, the
    selector string is read with `ReadCStringFromMemory(ptr, 256)` (so at
    most 255 bytes), and empty reads are skipped. -/
def batchItemOpt (env : SelEnv) (m : Nat) : Option (Str × Nat × Option Str) :=
  if m = 0 then none
  else
    match env.selRaw m with
    | none => none
    | some s =>
        if env.cstrReadOk m then
          let nm := s.take 255
          if nm ≠ [] then some (nm, env.impOf m, none) else none
        else none

/-- One item of the per-method fallback in `get_methods_optimized` (batch
    expression failed): summary-based read via `unquote_string`, IMP falls
    back to 0 when its result is invalid. -/
def fallbackItem (env : SelEnv) (m : Nat) : Option (Str × Nat × Option Str) :=
  if m = 0 then none
  else if env.selEvalOk m then
    match (env.selRaw m).map ObjcUtils.pyQuote with
    | none => none
    | some summary =>
        if summary ≠ [] then
          some (ObjcUtils.unquote_string summary,
                (if env.impEvalOk m then env.impOf m else 0), none)
        else none
  else none

/-- The batch loop of `get_methods_optimized`: a failed info-malloc or a
    failed info read silently drops the batch (`continue`); a failed batch
    expression triggers the per-item fallback. -/
def runSelBatches (env : SelEnv) : Nat → List (List Nat) → List (Str × Nat × Option Str)
  | _, [] => []
  | idx, b :: rest =>
      (if env.batchEvalOk idx then
        if env.batchMallocNonzero idx then
          if env.ptrReadOk idx then b.filterMap (batchItemOpt env) else []
        else []
      else b.filterMap (fallbackItem env))
      ++ runSelBatches env (idx + 1) rest

/-- Embeds `get_methods_optimized` (scripts/objc_sel.py) with
    `resolve_categories=False` (its default; the category pass then never
    runs): (selector name, implementation address, category) triples. -/
def get_methods_optimized (env : SelEnv) : List (Str × Nat × Option Str) :=
  if env.countVarOk = false then []
  else if env.copyMethodListOk = false then []
  else if env.readCountOk = false then []
  else if env.methodPtrs.length = 0 ∨ env.methodListPtr = 0 then []
  else if env.bulkReadOk = false then []
  else runSelBatches env 0 (splitIntoBatches 50 env.methodPtrs)

/-- The index loop of the legacy `get_methods`: one element-read expression
    and one selector-name expression per method. -/
def legacyLoop (env : SelEnv) (pattern : Option Str) : Nat → List Nat → List Str
  | _, [] => []
  | i, m :: rest =>
      (if env.elemEvalOk i then
        if m = 0 then []
        else if env.selEvalOk m then
          match (env.selRaw m).map ObjcUtils.pyQuote with
          | none => []
          | some summary =>
              if summary ≠ [] then
                let nm := ObjcUtils.unquote_string summary
                if PatternMatch.matchesPatternSubstr nm pattern then [nm] else []
              else []
        else []
      else [])
      ++ legacyLoop env pattern (i + 1) rest

/-- Embeds the legacy reference implementation `get_methods`
    (scripts/objc_sel.py): selector names only. -/
def get_methods (env : SelEnv) (pattern : Option Str) : List Str :=
  if env.countVarOk = false then []
  else if env.copyMethodListOk = false then []
  else if env.readCountOk = false then []
  else legacyLoop env pattern 0 env.methodPtrs

end ObjcSel

namespace Samples

/-- A two-class runtime (pointers 5 ↦ "Foo", 6 ↦ "Bar") with every bridge
    call succeeding; `NSClassFromString` resolves exactly "Foo". -/
def sampleEnv : ObjcCls.ClsEnv where
  nsClassFromString := fun s => if s = ("Foo").toList then some 5 else some 0
  rawName := fun p =>
    if p = 5 then some (("Foo").toList)
    else if p = 6 then some (("Bar").toList)
    else none
  countVarOk := true
  copyListOk := true
  readCountOk := true
  bulkReadOk := true
  classPtrs := [5, 6]
  batchEvalOk := fun _ => true

/-- The same runtime with the count-variable allocation failing. -/
def sampleEnvAllocFail : ObjcCls.ClsEnv :=
  { sampleEnv with countVarOk := false }

/-- The empty class cache. -/
def emptyCacheCls : ObjcCls.Cache := fun _ => none

/-- A cache already holding two class names for process 7. -/
def cacheAB : ObjcCls.Cache :=
  fun q => if q = 7 then some ⟨[("A").toList, ("B").toList], 2⟩ else none

/-- A one-method runtime whose selector has an empty name. -/
def sampleSelEnvEmptyName : ObjcSel.SelEnv where
  countVarOk := true
  copyMethodListOk := true
  methodListPtr := 9
  readCountOk := true
  bulkReadOk := true
  methodPtrs := [1]
  selRaw := fun m => if m = 1 then some [] else none
  impOf := fun _ => 4096
  elemEvalOk := fun _ => true
  selEvalOk := fun _ => true
  impEvalOk := fun _ => true
  batchEvalOk := fun _ => true
  batchMallocNonzero := fun _ => true
  ptrReadOk := fun _ => true
  cstrReadOk := fun _ => true

/-- A three-method runtime (pointers 1 ↦ "init", 0 = NULL, 2 ↦ "dealloc")
    with every bridge call succeeding. -/
def sampleSelEnv : ObjcSel.SelEnv where
  countVarOk := true
  copyMethodListOk := true
  methodListPtr := 9
  readCountOk := true
  bulkReadOk := true
  methodPtrs := [1, 0, 2]
  selRaw := fun m =>
    if m = 1 then some (("init").toList)
    else if m = 2 then some (("dealloc").toList)
    else none
  impOf := fun m => 4096 + m
  elemEvalOk := fun _ => true
  selEvalOk := fun _ => true
  impEvalOk := fun _ => true
  batchEvalOk := fun _ => true
  batchMallocNonzero := fun _ => true
  ptrReadOk := fun _ => true
  cstrReadOk := fun _ => true

/-- A three-class runtime whose middle name (117 bytes) overflows the
    40·N = 120 byte estimate of a 3-item batch. -/
def sampleEnvOverflow : ObjcCls.ClsEnv where
  nsClassFromString := fun _ => some 0
  rawName := fun p =>
    if p = 1 then some [('A')]
    else if p = 2 then some (List.replicate 117 'x')
    else if p = 3 then some [('Q')]
    else none
  countVarOk := true
  copyListOk := true
  readCountOk := true
  bulkReadOk := true
  classPtrs := [1, 2, 3]
  batchEvalOk := fun _ => false

end Samples

-- ===== theorems =====

namespace BufferCodec

theorem encodeItems_fst_head? (items : List (Option Str)) (est cur : Nat) :
    (encodeItems est cur items).1.head? = some (headOffset cur items) := by
  cases items with
  | nil => simp [encodeItems, headOffset]
  | cons it rest =>
    cases it with
    | none => simp [encodeItems, headOffset]
    | some nm =>
      simp only [encodeItems, headOffset]
      split <;> simp

theorem encodeItems_fst_length (items : List (Option Str)) (est cur : Nat) :
    (encodeItems est cur items).1.length = items.length + 1 := by
  induction items generalizing cur with
  | nil => simp [encodeItems]
  | cons it rest ih =>
    cases it with
    | none => simp [encodeItems, ih]
    | some nm =>
      simp only [encodeItems]
      split <;> simp [ih]

theorem encodeItems_snd_length (items : List (Option Str)) (est cur : Nat)
    (hf : fits est cur items = true) :
    (encodeItems est cur items).2.length = presentSize items := by
  induction items generalizing cur with
  | nil => simp [encodeItems, presentSize]
  | cons it rest ih =>
    cases it with
    | none =>
      simp only [fits] at hf
      simp [encodeItems, presentSize, ih _ hf]
    | some nm =>
      simp only [fits, Bool.and_eq_true, decide_eq_true_eq] at hf
      simp only [encodeItems, presentSize]
      rw [if_pos hf.1]
      simp [ih _ hf.2]
      omega

theorem findIdxL_nulChar_append (nm t : Str) (h : ∀ c ∈ nm, c ≠ nulChar) :
    findIdxL (· = nulChar) (nm ++ nulChar :: t) = some nm.length := by
  induction nm with
  | nil => simp [findIdxL]
  | cons c cs ih =>
    have hc : ¬(c = nulChar) := h c (by simp)
    have ih' := ih (fun d hd => h d (by simp [hd]))
    simp only [List.cons_append, findIdxL, decide_eq_true_eq, if_neg hc, List.append_eq]
    rw [ih']
    simp

theorem decodeLoop_encodeItems (items : List (Option Str)) :
    ∀ (est cur : Nat) (heapAll : Str),
      fits est cur items = true →
      itemsNulFree items = true →
      est ≤ sentinel →
      cur ≤ heapAll.length →
      heapAll.drop cur = (encodeItems est cur items).2 →
      decodeLoop trueKeep heapAll (encodeItems est cur items).1 = items.filterMap id := by
  induction items with
  | nil =>
    intro est cur heapAll _ _ _ _ _
    simp [encodeItems, decodeLoop]
  | cons it rest ih =>
    intro est cur heapAll hf hn hs hcl hh
    cases it with
    | none =>
      obtain ⟨hd, t, hos⟩ : ∃ hd t, (encodeItems est cur rest).1 = hd :: t := by
        have h1 := encodeItems_fst_head? rest est cur
        cases hos' : (encodeItems est cur rest).1 with
        | nil => rw [hos'] at h1; simp at h1
        | cons a b => exact ⟨a, b, rfl⟩
      simp only [fits] at hf
      simp only [itemsNulFree, List.all_cons, Bool.and_eq_true] at hn
      simp only [encodeItems] at hh ⊢
      rw [hos]
      rw [decodeLoop]
      rw [if_pos rfl, ← hos]
      rw [ih est cur heapAll hf (by simpa [itemsNulFree] using hn.2) hs hcl hh]
      simp
    | some nm =>
      simp only [fits, Bool.and_eq_true, decide_eq_true_eq] at hf
      obtain ⟨hlt, hf'⟩ := hf
      simp only [itemsNulFree, List.all_cons, Bool.and_eq_true] at hn
      obtain ⟨hn1, hn'⟩ := hn
      have hn1' : ∀ c ∈ nm, c ≠ nulChar := by
        intro c hc
        have := List.all_eq_true.mp hn1 c hc
        simpa using this
      have henc : encodeItems est cur (some nm :: rest)
          = (cur :: (encodeItems est (cur + (nm.length + 1)) rest).1,
             (nm ++ [nulChar]) ++ (encodeItems est (cur + (nm.length + 1)) rest).2) := by
        simp only [encodeItems]
        rw [if_pos hlt]
      rw [henc] at hh ⊢
      have hlen1 : heapAll.length
          = cur + (nm.length + 1)
            + (encodeItems est (cur + (nm.length + 1)) rest).2.length := by
        have := congrArg List.length hh
        simp only [List.length_drop, List.length_append, List.length_cons,
          List.length_nil] at this
        omega
      have hcl' : cur + (nm.length + 1) ≤ heapAll.length := by omega
      have hdrop' : heapAll.drop (cur + (nm.length + 1))
          = (encodeItems est (cur + (nm.length + 1)) rest).2 := by
        rw [← List.drop_drop, hh]
        have hl : (nm ++ [nulChar]).length = nm.length + 1 := by simp
        rw [List.drop_left' hl]
      have hslice : pySliceClamp heapAll cur (((cur + nm.length + 1 : Nat) : Int) - 1)
          = nm := by
        have hb : (((cur + nm.length + 1 : Nat) : Int) - 1)
            = ((cur + nm.length : Nat) : Int) := by push_cast; ring
        rw [hb]
        simp only [pySliceClamp]
        have hnotneg : ¬(((cur + nm.length : Nat) : Int) < 0) := by omega
        rw [if_neg hnotneg]
        have hminle : ((cur + nm.length : Nat) : Int) ≤ ((heapAll.length : Nat) : Int) := by
          exact_mod_cast Nat.le_of_lt (by omega)
        rw [min_eq_left hminle]
        rw [Int.toNat_ofNat]
        rw [← List.take_drop cur nm.length heapAll]
        rw [hh]
        rw [List.take_append_of_le_length (by simp)]
        simp
      have hcurne : cur ≠ sentinel := by
        have : cur < sentinel := by omega
        omega
      obtain ⟨hd, t, hos⟩ : ∃ hd t,
          (encodeItems est (cur + (nm.length + 1)) rest).1 = hd :: t := by
        have h1 := encodeItems_fst_head? rest est (cur + (nm.length + 1))
        cases hos' : (encodeItems est (cur + (nm.length + 1)) rest).1 with
        | nil => rw [hos'] at h1; simp at h1
        | cons a b => exact ⟨a, b, rfl⟩
      have hfindnul : findNulFrom heapAll cur = some (cur + nm.length) := by
        unfold findNulFrom
        rw [hh]
        rw [List.append_assoc, List.singleton_append]
        rw [findIdxL_nulChar_append nm _ hn1']
      have hnext :
          (if t ≠ [] ∧ hd ≠ sentinel then some hd
           else
             match findNulFrom heapAll cur with
             | some p => some (p + 1)
             | none => none) = some (cur + nm.length + 1) := by
        cases rest with
        | nil =>
          have ht : t = [] := by
            have h2 := encodeItems_fst_length ([] : List (Option Str)) est
              (cur + (nm.length + 1))
            rw [hos] at h2
            simp at h2
            exact h2
          rw [if_neg (by simp [ht])]
          rw [hfindnul]
        | cons it2 rest2 =>
          cases it2 with
          | none =>
            have hhd : hd = sentinel := by
              have h1 := encodeItems_fst_head? (none :: rest2) est (cur + (nm.length + 1))
              rw [hos] at h1
              simp [headOffset] at h1
              omega
            rw [if_neg (by simp [hhd])]
            rw [hfindnul]
          | some nm2 =>
            have hhd : hd = cur + (nm.length + 1) := by
              have h1 := encodeItems_fst_head? (some nm2 :: rest2) est (cur + (nm.length + 1))
              rw [hos] at h1
              simp [headOffset] at h1
              omega
            have ht : t ≠ [] := by
              have h2 := encodeItems_fst_length (some nm2 :: rest2) est (cur + (nm.length + 1))
              rw [hos] at h2
              simp at h2
              intro hteq
              rw [hteq] at h2
              simp at h2
            have hhdne : hd ≠ sentinel := by
              simp only [fits, Bool.and_eq_true, decide_eq_true_eq] at hf'
              omega
            rw [if_pos ⟨ht, hhdne⟩, hhd]
            simp [Nat.add_assoc]
      rw [hos, decodeLoop, if_neg hcurne]
      simp only [hnext]
      rw [hslice]
      have hkeep : trueKeep nm = true := rfl
      rw [if_pos hkeep, ← hos]
      rw [ih est (cur + (nm.length + 1)) heapAll hf'
        (by simpa [itemsNulFree] using hn') hs hcl' hdrop']
      simp

theorem encodeItems_getD_sentinel (items : List (Option Str)) :
    ∀ (est cur : Nat), fits est cur items = true → est ≤ sentinel →
      ∀ i, i < items.length →
        ((encodeItems est cur items).1.getD i 0 = sentinel ↔ items.getD i none = none) := by
  induction items with
  | nil => intro est cur _ _ i hi; simp at hi
  | cons it rest ih =>
    intro est cur hf hs i hi
    cases it with
    | none =>
      simp only [fits] at hf
      cases i with
      | zero => simp [encodeItems]
      | succ j =>
        simp only [encodeItems, List.getD_cons_succ]
        exact ih est cur hf hs j (by simpa using hi)
    | some nm =>
      simp only [fits, Bool.and_eq_true, decide_eq_true_eq] at hf
      obtain ⟨hlt, hf'⟩ := hf
      have henc : encodeItems est cur (some nm :: rest)
          = (cur :: (encodeItems est (cur + (nm.length + 1)) rest).1,
             (nm ++ [nulChar]) ++ (encodeItems est (cur + (nm.length + 1)) rest).2) := by
        simp only [encodeItems]
        rw [if_pos hlt]
      rw [henc]
      cases i with
      | zero =>
        simp only [List.getD_cons_zero]
        constructor
        · intro hcur; omega
        · intro hsome; simp at hsome
      | succ j =>
        simp only [List.getD_cons_succ]
        exact ih est (cur + (nm.length + 1)) hf' hs j (by simpa using hi)

/-- Claim C1 (amended): the consolidated-buffer wire format round-trips
    whenever every present item's null-terminated size keeps the running heap
    offset strictly below the 40·N estimate at its copy (and 40·N itself is
    below the 0xFFFFFFFF sentinel): decoding the encoded buffer with no
    pattern filter returns exactly the present strings in order, and the
    offset table holds the sentinel exactly at the absent slots. -/
theorem c1_buffer_roundtrip (items : List (Option Str))
    (hf : fits (stringEstimate items.length) 0 items = true)
    (hn : itemsNulFree items = true)
    (hs : stringEstimate items.length ≤ sentinel) :
    readConsolidatedStringBuffer (encode items).1 (encode items).2 trueKeep
      = items.filterMap id
    ∧ ∀ i, i < items.length →
        ((encode items).1.getD i 0 = sentinel ↔ items.getD i none = none) := by
  constructor
  · unfold readConsolidatedStringBuffer encode
    exact decodeLoop_encodeItems items _ 0 _ hf hn hs (Nat.zero_le _) (List.drop_zero _)
  · intro i hi
    exact encodeItems_getD_sentinel items _ 0 hf hs i hi

/-- Witness for the amended claim C1: the spec's own three-item scenario
    (item 2 absent) round-trips. -/
theorem c1_buffer_roundtrip_witness :
    fits (stringEstimate 3) 0 [some (("Foo").toList), none, some (("Bar").toList)] = true
    ∧ readConsolidatedStringBuffer
        (encode [some (("Foo").toList), none, some (("Bar").toList)]).1
        (encode [some (("Foo").toList), none, some (("Bar").toList)]).2 trueKeep
      = [("Foo").toList, ("Bar").toList] :=
  ⟨by decide,
   (c1_buffer_roundtrip [some (("Foo").toList), none, some (("Bar").toList)]
      (by decide) (by decide) (by decide)).1.trans (by decide)⟩

/-- Counterexample to claim C1 as stated: for a single 39-byte name the copy
    guard `current_offset + len < 40` fails, the offset slot is written
    anyway, nothing is copied, and decoding drops the item — the round trip
    does not reproduce the original list. -/
theorem c1_roundtrip_fails_on_estimate_overflow :
    readConsolidatedStringBuffer
        (encode [some (List.replicate 39 'a')]).1
        (encode [some (List.replicate 39 'a')]).2 trueKeep
      ≠ [some (List.replicate 39 'a')].filterMap id := by decide

end BufferCodec

namespace ObjcCls

theorem try_exact_spec (env : ClsEnv) (p : Str) :
    (try_exact_class_match env p).2 ≤ 2
    ∧ ∀ nm, (try_exact_class_match env p).1 = some nm →
        nm = p ∧ (try_exact_class_match env p).2 = 2 := by
  unfold try_exact_class_match
  rcases h1 : env.nsClassFromString p with _ | ptr <;> simp only [h1]
  · simp
  · by_cases h2 : ptr = 0
    · simp [h2]
    · rw [if_neg h2]
      rcases h3 : (env.rawName ptr).map ObjcUtils.pyQuote with _ | summary
        <;> simp only [h3]
      · simp
      · by_cases h4 : summary = []
        · simp [h4]
        · rw [if_pos h4]
          by_cases h5 : ObjcUtils.unquote_string summary = p
          · simp [h5]
          · simp [h5]

/-- Claim C4 (amended): for every NON-EMPTY pattern with neither `*` nor
    `?`, `get_all_classes` takes the exact-lookup fast path: the cache is
    untouched, at most two expression evaluations happen (exactly two on
    the success path, independent of the class count), on success the
    result is exactly the confirmed name with count 1 and
    `from_cache=False`, and on any failure the result is empty with
    `from_cache=False` — never a fallback to full enumeration.  (An empty
    pattern string is falsy in the guard and skips the fast path, so the
    claim's "every pattern" fails there.) -/
theorem c4_exact_lookup_fast_path (env : ClsEnv) (p : Str) (forceReload : Bool)
    (bs : Nat) (cache : Cache) (pid : Nat)
    (hne : p ≠ []) (hstar : p.contains '*' = false) (hq : p.contains '?' = false) :
    (get_all_classes env (some p) forceReload bs cache pid).2 = cache
    ∧ (try_exact_class_match env p).2 ≤ 2
    ∧ (∀ nm, (try_exact_class_match env p).1 = some nm →
        nm = p ∧ (try_exact_class_match env p).2 = 2
        ∧ (get_all_classes env (some p) forceReload bs cache pid).1
            = GResult.tup [p] 1 false)
    ∧ ((try_exact_class_match env p).1 = none →
        (get_all_classes env (some p) forceReload bs cache pid).1
          = GResult.tup [] 0 false) := by
  have hcond : p ≠ [] ∧ ¬((p.contains '*' || p.contains '?') = true) := by
    refine ⟨hne, ?_⟩
    rw [hstar, hq]
    simp
  simp only [get_all_classes]
  rw [if_pos hcond]
  rcases hx : (try_exact_class_match env p).1 with _ | nm
  · refine ⟨by simp [hx], (try_exact_spec env p).1, ?_, by simp [hx]⟩
    intro nm' hnm'
    exact absurd hnm' (by simp)
  · obtain ⟨hnmp, h2⟩ := (try_exact_spec env p).2 nm hx
    refine ⟨by simp [hx], (try_exact_spec env p).1, ?_, ?_⟩
    · intro nm' hnm'
      obtain rfl : nm = nm' := by injection hnm'
      refine ⟨hnmp, h2, ?_⟩
      rw [← hnmp]
    · intro hnone
      exact absurd hnone (by simp)

/-- Witness for the amended claim C4: the fast path confirms "Foo" in the
    two-class sample runtime with exactly two evaluations, leaving the
    cache untouched. -/
theorem c4_exact_lookup_fast_path_witness :
    (get_all_classes Samples.sampleEnv (some (("Foo").toList)) false 35
        Samples.emptyCacheCls 7).2 = Samples.emptyCacheCls
    ∧ (try_exact_class_match Samples.sampleEnv (("Foo").toList)).2 = 2
    ∧ (get_all_classes Samples.sampleEnv (some (("Foo").toList)) false 35
        Samples.emptyCacheCls 7).1 = GResult.tup [("Foo").toList] 1 false := by
  have h := c4_exact_lookup_fast_path Samples.sampleEnv (("Foo").toList) false 35
    Samples.emptyCacheCls 7 (by decide) (by decide) (by decide)
  have hx : (try_exact_class_match Samples.sampleEnv (("Foo").toList)).1
      = some (("Foo").toList) := by decide
  obtain ⟨hc, _, hs, _⟩ := h
  obtain ⟨_, h2, h3⟩ := hs (("Foo").toList) hx
  exact ⟨hc, h2, h3⟩

/-- Counterexample to claim C4 as stated: the empty pattern contains
    neither `*` nor `?`, yet `get_all_classes` serves it from the cache
    (`from_cache=True`, both cached names returned) instead of taking the
    exact-lookup fast path. -/
theorem c4_empty_pattern_skips_fast_path :
    (get_all_classes Samples.sampleEnv (some []) false 35 Samples.cacheAB 7).1
      = GResult.tup [("A").toList, ("B").toList] 2 true := by decide

theorem get_all_classes_consults (env : ClsEnv) (pattern : Option Str)
    (forceReload : Bool) (bs : Nat) (cache : Cache) (pid : Nat)
    (h : consultsCache pattern = true) :
    get_all_classes env pattern forceReload bs cache pid
      = mainLookup env pattern forceReload bs cache pid := by
  cases pattern with
  | none => rfl
  | some p =>
    simp only [get_all_classes]
    rw [if_neg]
    rintro ⟨hne, hnw⟩
    have h' : p.isEmpty = true ∨ p.contains '*' = true ∨ p.contains '?' = true := by
      have h2 := h
      simp only [consultsCache, Bool.or_eq_true] at h2
      tauto
    rcases h' with h1 | h2 | h3
    · exact hne (List.isEmpty_iff.mp h1)
    · apply hnw
      rw [h2]
      simp
    · apply hnw
      rw [h3]
      simp

theorem mainLookup_hit (env : ClsEnv) (pattern : Option Str) (bs : Nat)
    (cache : Cache) (pid : Nat) (entry : CacheEntry)
    (h : cache pid = some entry) :
    mainLookup env pattern false bs cache pid
      = (GResult.tup (filterByPattern pattern entry.classes) entry.count true, cache) := by
  simp [mainLookup, h]

theorem mainLookup_miss (env : ClsEnv) (pattern : Option Str)
    (forceReload : Bool) (bs : Nat) (cache : Cache) (pid : Nat)
    (h : cache pid = none) :
    mainLookup env pattern forceReload bs cache pid
      = enumerateClasses env pattern bs cache pid := by
  unfold mainLookup
  rw [h]
  cases forceReload <;> rfl

theorem enumerateClasses_ok (env : ClsEnv) (pattern : Option Str) (bs : Nat)
    (cache : Cache) (pid : Nat)
    (h1 : env.countVarOk = true) (h2 : env.copyListOk = true)
    (h3 : env.readCountOk = true) (h4 : env.bulkReadOk = true) :
    enumerateClasses env pattern bs cache pid
      = (GResult.tup
          (filterByPattern pattern (runBatches env 0 (splitIntoBatches bs env.classPtrs)))
          env.classPtrs.length false,
         fun q => if q = pid then
            some ⟨runBatches env 0 (splitIntoBatches bs env.classPtrs),
                  env.classPtrs.length⟩
          else cache q) := by
  unfold enumerateClasses
  rw [h1, h2, h3, h4]
  simp

theorem enumerateClasses_fail (env : ClsEnv) (pattern : Option Str) (bs : Nat)
    (cache : Cache) (pid : Nat)
    (h : ¬(env.countVarOk = true ∧ env.copyListOk = true
        ∧ env.readCountOk = true ∧ env.bulkReadOk = true)) :
    enumerateClasses env pattern bs cache pid = (GResult.bare [], cache) := by
  unfold enumerateClasses
  by_cases h1 : env.countVarOk = false
  · rw [if_pos h1]
  · rw [if_neg h1]
    by_cases h2 : env.copyListOk = false
    · rw [if_pos h2]
    · rw [if_neg h2]
      by_cases h3 : env.readCountOk = false
      · rw [if_pos h3]
      · rw [if_neg h3]
        by_cases h4 : env.bulkReadOk = false
        · rw [if_pos h4]
        · exfalso
          apply h
          simp only [Bool.not_eq_false] at h1 h2 h3 h4
          exact ⟨h1, h2, h3, h4⟩

/-- Claim C3 (amended): after the cache entry of a process is cleared, the
    next `get_all_classes` call with `force_reload=False` and a pattern
    that consults the cache (none, empty, or containing a wildcard)
    re-enumerates and reports `from_cache=False`, storing an entry; every
    subsequent such call (any environment, any cache-consulting pattern)
    reports `from_cache=True` and leaves the cache unchanged — so the
    cached state persists until the next clear or forced reload.  (For a
    non-empty wildcard-free pattern the fast path reports
    `from_cache=False` instead, which refutes the claim's "for any
    pattern".) -/
theorem c3_clear_then_single_reload (env : ClsEnv) (pattern : Option Str)
    (bs : Nat) (cache : Cache) (pid : Nat)
    (hclear : cache pid = none)
    (hok : env.countVarOk = true ∧ env.copyListOk = true
        ∧ env.readCountOk = true ∧ env.bulkReadOk = true)
    (hpat : consultsCache pattern = true) :
    (∃ names count,
      (get_all_classes env pattern false bs cache pid).1 = GResult.tup names count false)
    ∧ ((get_all_classes env pattern false bs cache pid).2 pid).isSome = true
    ∧ ∀ (env' : ClsEnv) (pattern' : Option Str) (bs' : Nat),
        consultsCache pattern' = true →
        (∃ names' count',
          (get_all_classes env' pattern' false bs'
              (get_all_classes env pattern false bs cache pid).2 pid).1
            = GResult.tup names' count' true)
        ∧ (get_all_classes env' pattern' false bs'
              (get_all_classes env pattern false bs cache pid).2 pid).2
            = (get_all_classes env pattern false bs cache pid).2 := by
  have hgc : get_all_classes env pattern false bs cache pid
      = (GResult.tup
          (filterByPattern pattern (runBatches env 0 (splitIntoBatches bs env.classPtrs)))
          env.classPtrs.length false,
         fun q => if q = pid then
            some (CacheEntry.mk (runBatches env 0 (splitIntoBatches bs env.classPtrs))
              env.classPtrs.length)
          else cache q) := by
    rw [get_all_classes_consults env pattern false bs cache pid hpat,
        mainLookup_miss env pattern false bs cache pid hclear,
        enumerateClasses_ok env pattern bs cache pid hok.1 hok.2.1 hok.2.2.1 hok.2.2.2]
  have hfst := congrArg Prod.fst hgc
  have hsnd := congrArg Prod.snd hgc
  simp only at hfst hsnd
  rw [hfst, hsnd]
  refine ⟨⟨_, _, rfl⟩, by simp, ?_⟩
  intro env' pattern' bs' hpat'
  have hc2 : (fun q => if q = pid then
        some (CacheEntry.mk (runBatches env 0 (splitIntoBatches bs env.classPtrs))
          env.classPtrs.length)
      else cache q) pid
      = some (CacheEntry.mk (runBatches env 0 (splitIntoBatches bs env.classPtrs))
          env.classPtrs.length) := by simp
  rw [get_all_classes_consults env' pattern' false bs' _ pid hpat',
      mainLookup_hit env' pattern' bs' _ pid _ hc2]
  exact ⟨⟨_, _, rfl⟩, rfl⟩

/-- Witness for the amended claim C3: in the two-class sample runtime the
    first call after a clear misses and re-enumerates; the theorem then
    applies to it. -/
theorem c3_clear_then_single_reload_witness :
    (∃ names count,
      (get_all_classes Samples.sampleEnv none false 35 Samples.emptyCacheCls 7).1
        = GResult.tup names count false)
    ∧ ((get_all_classes Samples.sampleEnv none false 35 Samples.emptyCacheCls 7).2 7).isSome
        = true
    ∧ ∀ (env' : ClsEnv) (pattern' : Option Str) (bs' : Nat),
        consultsCache pattern' = true →
        (∃ names' count',
          (get_all_classes env' pattern' false bs'
              (get_all_classes Samples.sampleEnv none false 35 Samples.emptyCacheCls 7).2 7).1
            = GResult.tup names' count' true)
        ∧ (get_all_classes env' pattern' false bs'
              (get_all_classes Samples.sampleEnv none false 35 Samples.emptyCacheCls 7).2 7).2
            = (get_all_classes Samples.sampleEnv none false 35 Samples.emptyCacheCls 7).2 :=
  c3_clear_then_single_reload Samples.sampleEnv none 35 Samples.emptyCacheCls 7
    (by decide) (by decide) (by decide)

/-- Counterexample to claim C3 as stated: after a fresh enumeration filled
    the cache for process 7, a subsequent `force_reload=False` call with
    the wildcard-free pattern "Foo" is answered by the exact-match fast
    path and reports `from_cache=False`, not `True`. -/
theorem c3_fast_path_reports_not_cached :
    (get_all_classes Samples.sampleEnv none false 35 Samples.emptyCacheCls 7).1
      = GResult.tup [("Foo").toList, ("Bar").toList] 2 false
    ∧ (get_all_classes Samples.sampleEnv (some (("Foo").toList)) false 35
        (get_all_classes Samples.sampleEnv none false 35 Samples.emptyCacheCls 7).2 7).1
      = GResult.tup [("Foo").toList] 1 false := by decide

/-- Claim C9: when any remote bridge call of a cache-miss enumeration
    fails (count-variable allocation, class-list copy, count read, or the
    bulk pointer-array read), `get_all_classes` returns the bare `[]` of
    its error paths instead of its declared
    `(names, timing, count, from_cache)` tuple, so the caller's 4-variable
    unpacking in `find_objc_classes` raises ValueError — the failure is
    not returned as a value of the declared result shape. -/
theorem c9_bridge_failure_returns_bare (env : ClsEnv) (pattern : Option Str)
    (bs : Nat) (cache : Cache) (pid : Nat)
    (hmiss : cache pid = none)
    (hpat : consultsCache pattern = true)
    (hfail : ¬(env.countVarOk = true ∧ env.copyListOk = true
        ∧ env.readCountOk = true ∧ env.bulkReadOk = true)) :
    (get_all_classes env pattern false bs cache pid).1 = GResult.bare []
    ∧ unpack_get_all_classes (get_all_classes env pattern false bs cache pid).1 = none := by
  have hmain := get_all_classes_consults env pattern false bs cache pid hpat
  have hmiss' := mainLookup_miss env pattern false bs cache pid hmiss
  have hfail' := enumerateClasses_fail env pattern bs cache pid hfail
  rw [hmain, hmiss', hfail']
  exact ⟨rfl, rfl⟩

/-- Witness for claim C9: with the count-variable allocation failing, the
    sample run returns the bare list and the caller unpacking fails. -/
theorem c9_bridge_failure_returns_bare_witness :
    (get_all_classes Samples.sampleEnvAllocFail none false 35 Samples.emptyCacheCls 7).1
      = GResult.bare []
    ∧ unpack_get_all_classes
        (get_all_classes Samples.sampleEnvAllocFail none false 35 Samples.emptyCacheCls 7).1
      = none :=
  c9_bridge_failure_returns_bare Samples.sampleEnvAllocFail none 35 Samples.emptyCacheCls 7
    (by decide) (by decide) (by decide)

end ObjcCls

namespace ObjcClasses

/-- Claim C2: the legacy `objc_classes.get_all_classes` contradicts its
    own "Store in cache (unfiltered list)" comment and the unfiltered-cache
    contract: a cache-miss call with pattern "Foo" against the runtime
    {Foo, Bar} stores only the filtered list ["Foo"] (with count 2), so a
    later cache-hit call with no pattern returns ["Foo"] and the class
    "Bar" is lost until a forced reload. -/
theorem c2_legacy_caches_filtered_list :
    ((get_all_classes_legacy Samples.sampleEnv (some (("Foo").toList)) false 35
        Samples.emptyCacheCls 7).2 7)
      = some (ObjcCls.CacheEntry.mk [("Foo").toList] 2)
    ∧ (get_all_classes_legacy Samples.sampleEnv none false 35
        (get_all_classes_legacy Samples.sampleEnv (some (("Foo").toList)) false 35
          Samples.emptyCacheCls 7).2 7).1
      = ObjcCls.GResult.tup [("Foo").toList] 2 true
    ∧ ¬([("Foo").toList] = [("Foo").toList, ("Bar").toList]) := by decide

end ObjcClasses



namespace PatternMatch

theorem matchTokensF_star (x : Str) (h : newlineChar ∉ x) :
    matchTokensF (x.length + 1) [GlobTok.star] x = true := by
  induction x with
  | nil => rfl
  | cons c cs ih =>
    have hc : (c == newlineChar) = false := by
      apply beq_eq_false_iff_ne.mpr
      intro hEq
      exact h (by rw [hEq]; exact List.mem_cons_self _ _)
    have ih' := ih fun hm => h (List.mem_cons_of_mem _ hm)
    simp only [List.length_cons, matchTokensF]
    rw [hc, ih']
    simp

/-- Claim C7 (amended): the matcher of objc_cls.py satisfies the spec's
    sample equations — `Match(n, n, Exact)` for every wildcard-free `n`;
    `Match(x, "*", Wildcard)` for every non-empty `x` WITHOUT an interior
    newline (under Python `re`, `^.*$` does not match across a newline, so
    the unrestricted claim fails); `"ABC"` matches `"A?C"` while `"ABBC"`
    does not; and the substring matcher of objc_classes.py accepts
    `("FooBar", "bar")` case-insensitively. -/
theorem c7_pattern_matcher_samples :
    (∀ n : Str, n.contains '*' = false → n.contains '?' = false →
        matchesPatternCls n (some n) = true)
    ∧ (∀ x : Str, x ≠ [] → newlineChar ∉ x →
        matchesPatternCls x (some [('*')]) = true)
    ∧ matchesPatternCls (("ABC").toList) (some (("A?C").toList)) = true
    ∧ matchesPatternCls (("ABBC").toList) (some (("A?C").toList)) = false
    ∧ matchesPatternSubstr (("FooBar").toList) (some (("bar").toList)) = true := by
  refine ⟨?_, ?_, by decide, by decide, by decide⟩
  · intro n h1 h2
    simp only [matchesPatternCls]
    rw [h1, h2]
    simp
  · intro x _ hnl
    simp only [matchesPatternCls]
    rw [if_pos (by decide)]
    have ht : tokenize [('*')] = [GlobTok.star] := by decide
    rw [ht]
    show matchTokensF ([GlobTok.star].length + x.length) [GlobTok.star] x = true
    simp only [List.length_cons, List.length_nil, Nat.zero_add]
    rw [Nat.add_comm]
    exact matchTokensF_star x hnl

/-- Witness for the amended claim C7: its two universal parts applied at
    concrete strings. -/
theorem c7_pattern_matcher_samples_witness :
    matchesPatternCls (("Foo").toList) (some (("Foo").toList)) = true
    ∧ matchesPatternCls (("Fo").toList) (some [('*')]) = true :=
  ⟨c7_pattern_matcher_samples.1 (("Foo").toList) (by decide) (by decide),
   c7_pattern_matcher_samples.2.1 (("Fo").toList) (by decide) (by decide)⟩

/-- Counterexample to claim C7 as stated: the regex compiled from `"*"` is
    `^.*$`, whose `.` does not match a newline and whose `$` only accepts
    a trailing one, so the non-empty string with an interior newline does
    not match. -/
theorem c7_star_fails_on_newline :
    matchesPatternCls [('a'), newlineChar, ('b')] (some [('*')]) = false := by decide

end PatternMatch

namespace TypeEncoding

theorem takeWhile_all_append (p : Char → Bool) (l1 : Str) (c : Char) (l2 : Str)
    (h1 : ∀ a ∈ l1, p a = true) (hc : p c = false) :
    (l1 ++ c :: l2).takeWhile p = l1 := by
  induction l1 with
  | nil => simp [List.takeWhile_cons, hc]
  | cons a l ih =>
    simp only [List.cons_append, List.takeWhile_cons, h1 a (by simp), if_true]
    rw [ih fun b hb => h1 b (by simp [hb])]

theorem dropWhile_all_append (p : Char → Bool) (l1 : Str) (c : Char) (l2 : Str)
    (h1 : ∀ a ∈ l1, p a = true) (hc : p c = false) :
    (l1 ++ c :: l2).dropWhile p = c :: l2 := by
  induction l1 with
  | nil => simp [List.dropWhile_cons, hc]
  | cons a l ih =>
    simp only [List.cons_append, List.dropWhile_cons, h1 a (by simp), if_true]
    exact ih fun b hb => h1 b (by simp [hb])

/-- Claim C6 (amended): the decoder satisfies the spec's five sample
    equations, and for every input consisting of qualifier characters
    followed by a NON-EMPTY remainder, the qualifier words are prepended
    (space-joined) to the decoded remainder.  An input made of qualifiers
    only decodes to the words followed by a trailing space — not to the
    words prepended to `Decode("") = "?"` — which refutes the claim's
    unrestricted qualifier sentence. -/
theorem c6_type_decoder_samples :
    decode_type_encoding (("i").toList) = ("int").toList
    ∧ decode_type_encoding (("^i").toList) = ("int *").toList
    ∧ decode_type_encoding ('@' :: quoteChar :: ("NSString").toList ++ [quoteChar])
        = ("NSString").toList
    ∧ decode_type_encoding (("[10i]").toList) = ("int[10]").toList
    ∧ decode_type_encoding (("b1").toList) = ("1 bit").toList
    ∧ ∀ (quals : Str) (c : Char) (rest2 : Str),
        quals ≠ [] → (∀ q ∈ quals, isQualChar q = true) → isQualChar c = false →
        decode_type_encoding (quals ++ c :: rest2)
          = joinSpace (quals.map qualWord) ++ ' ' :: decode_type_encoding (c :: rest2) := by
  refine ⟨?_, ?_, ?_, ?_, ?_, ?_⟩
  · simp [decode_type_encoding, decAux, typeMapLookup, isQualChar, startsWithL]
  · simp [decode_type_encoding, decAux, typeMapLookup, isQualChar, startsWithL]
  · simp [decode_type_encoding, decAux, typeMapLookup, isQualChar, startsWithL,
      lastIdxOf, findIdxL, protoWrap, quoteChar, backslashChar]
  · simp [decode_type_encoding, decAux, typeMapLookup, isQualChar, startsWithL,
      pyFind, findCharFrom, findIdxL]
  · simp [decode_type_encoding, decAux, typeMapLookup, isQualChar, startsWithL]
  · intro quals c rest2 hqne hq hc
    have hne1 : ¬(quals ++ c :: rest2 = []) := by simp
    have hne2 : ¬((c :: rest2 : Str) = []) := by simp
    have htake1 := takeWhile_all_append isQualChar quals c rest2 hq hc
    have hdrop1 := dropWhile_all_append isQualChar quals c rest2 hq hc
    have htake2 : (c :: rest2 : Str).takeWhile isQualChar = [] := by
      simp [List.takeWhile_cons, hc]
    have hdrop2 : (c :: rest2 : Str).dropWhile isQualChar = c :: rest2 := by
      simp [List.dropWhile_cons, hc]
    unfold decode_type_encoding
    rw [decAux, decAux]
    rw [if_neg hne1, if_neg hne2]
    rw [htake1, hdrop1, htake2, hdrop2]
    simp only [List.map_nil]
    rw [if_neg (by simp [hqne])]
    simp

/-- Witness for the amended claim C6: the qualifier part applied to the
    encoding `"ri"`, together with the first sample. -/
theorem c6_type_decoder_samples_witness :
    decode_type_encoding (("i").toList) = ("int").toList
    ∧ decode_type_encoding ([('r')] ++ ('i') :: [])
        = joinSpace ([('r')].map qualWord) ++ ' ' :: decode_type_encoding (('i') :: []) :=
  ⟨c6_type_decoder_samples.1,
   c6_type_decoder_samples.2.2.2.2.2 [('r')] ('i') [] (by decide) (by decide) (by decide)⟩

/-- Counterexample to claim C6 as stated: the input `"r"` begins with a
    qualifier character, but the decoder returns `"const "` (trailing
    space, nothing after), not the word prepended to the decoded empty
    remainder `"?"`. -/
theorem c6_qualifier_only_input_cex :
    decode_type_encoding [('r')] = ("const ").toList
    ∧ decode_type_encoding [] = [('?')]
    ∧ ("const ").toList ≠ ("const ?").toList
    ∧ ("const ").toList ≠ ("const?").toList := by
  refine ⟨?_, ?_, by decide, by decide⟩
  · simp [decode_type_encoding, decAux, typeMapLookup, isQualChar, startsWithL,
      qualWord, joinSpace]
  · simp [decode_type_encoding, decAux]

end TypeEncoding

namespace ObjcUtils

theorem pyReplaceF_escQuotes (nm : Str) (hb : backslashChar ∉ nm) :
    ∀ fuel, (escQuotes nm).length ≤ fuel →
      pyReplaceF [backslashChar, quoteChar] [quoteChar] fuel (escQuotes nm) = nm := by
  induction nm with
  | nil =>
    intro fuel _
    cases fuel <;> rfl
  | cons c cs ih =>
    intro fuel hf
    have hbcs : backslashChar ∉ cs := fun hm => hb (List.mem_cons_of_mem _ hm)
    by_cases hcq : c = quoteChar
    · subst hcq
      have hesc : escQuotes (quoteChar :: cs)
          = backslashChar :: quoteChar :: escQuotes cs := by
        simp [escQuotes]
      rw [hesc] at hf ⊢
      cases fuel with
      | zero => simp only [List.length_cons] at hf; omega
      | succ f =>
        have hsw : startsWithL [backslashChar, quoteChar]
            (backslashChar :: quoteChar :: escQuotes cs) = true := by
          simp [startsWithL]
        simp only [pyReplaceF, hsw]
        rw [if_neg (by simp)]
        rw [if_pos trivial]
        simp only [List.length_cons, List.length_nil, List.drop_succ_cons,
          List.drop_zero]
        have hfcs : (escQuotes cs).length ≤ f := by
          simp only [List.length_cons] at hf
          omega
        rw [ih hbcs f hfcs]
        rfl
    · have hcb : c ≠ backslashChar := by
        intro h
        exact hb (by rw [← h]; exact List.mem_cons_self _ _)
      have hesc : escQuotes (c :: cs) = c :: escQuotes cs := by
        simp [escQuotes, hcq]
      rw [hesc] at hf ⊢
      cases fuel with
      | zero => simp only [List.length_cons] at hf; omega
      | succ f =>
        have hsw : startsWithL [backslashChar, quoteChar] (c :: escQuotes cs) = false := by
          simp only [startsWithL, Bool.and_eq_false_iff]
          left
          exact beq_eq_false_iff_ne.mpr (Ne.symm hcb)
        simp only [pyReplaceF, hsw]
        rw [if_neg (by simp)]
        rw [if_neg (by simp)]
        have hfcs : (escQuotes cs).length ≤ f := by
          simp only [List.length_cons] at hf
          omega
        rw [ih hbcs f hfcs]

theorem unquote_pyQuote (nm : Str) (hb : backslashChar ∉ nm) :
    unquote_string (pyQuote nm) = nm := by
  unfold unquote_string pyQuote
  rw [if_pos]
  · have h1 : ((quoteChar :: escQuotes nm ++ [quoteChar]).drop 1).dropLast
        = escQuotes nm := List.dropLast_concat
    rw [h1]
    unfold pyReplace
    exact pyReplaceF_escQuotes nm hb _ le_rfl
  · refine ⟨?_, rfl, ?_⟩
    · simp
    · rw [show quoteChar :: escQuotes nm ++ [quoteChar]
          = (quoteChar :: escQuotes nm) ++ [quoteChar] from rfl]
      exact List.getLast?_concat _

end ObjcUtils

namespace ObjcCls

theorem fallbackNames_filterMap (env : ClsEnv) (b : List Nat)
    (hb : ∀ p ∈ b, p ≠ 0 → ∀ nm, env.rawName p = some nm → backslashChar ∉ nm) :
    fallbackNames env b = (batchItems env b).filterMap id := by
  induction b with
  | nil => rfl
  | cons p rest ih =>
    have ih' := ih fun p' hp' => hb p' (List.mem_cons_of_mem _ hp')
    simp only [fallbackNames, batchItems, List.map_cons, List.filterMap_cons] at ih' ⊢
    by_cases hp : p = 0
    · simp only [hp, if_pos rfl, ite_true]
      exact ih'
    · rw [if_neg hp, if_neg hp]
      rcases hr : env.rawName p with _ | nm
      · simp only [Option.map_none']
        exact ih'
      · have hbs := hb p (List.mem_cons_self _ _) hp nm hr
        simp only [Option.map_some']
        rw [if_pos (by simp [ObjcUtils.pyQuote])]
        rw [ObjcUtils.unquote_pyQuote nm hbs]
        simp only [id]
        rw [ih']

/-- Claim C8 (amended): for a batch whose compound expression fails, the
    per-item fallback of `get_all_classes` produces exactly the items a
    successful batched evaluation (encode + consolidated-buffer read)
    would produce, provided the batch's names fit the 40·N heap estimate
    (and are NUL-free and backslash-free, with 40·N below the sentinel):
    both equal the present names of the batch in order, so the batch is
    not aborted and no item is dropped.  Without the estimate bound the
    batched read can emit a spurious empty string for an overflowed slot,
    which the fallback does not produce. -/
theorem c8_fallback_equals_batched (env : ClsEnv) (b : List Nat)
    (hf : BufferCodec.fits (BufferCodec.stringEstimate b.length) 0 (batchItems env b) = true)
    (hn : BufferCodec.itemsNulFree (batchItems env b) = true)
    (hs : BufferCodec.stringEstimate b.length ≤ BufferCodec.sentinel)
    (hb : ∀ p ∈ b, p ≠ 0 → ∀ nm, env.rawName p = some nm → backslashChar ∉ nm) :
    fallbackNames env b
      = BufferCodec.readConsolidatedStringBuffer
          (BufferCodec.encode (batchItems env b)).1
          (BufferCodec.encode (batchItems env b)).2 BufferCodec.trueKeep := by
  have hlen : (batchItems env b).length = b.length := by simp [batchItems]
  rw [fallbackNames_filterMap env b hb]
  unfold BufferCodec.readConsolidatedStringBuffer BufferCodec.encode
  rw [hlen]
  exact (BufferCodec.decodeLoop_encodeItems (batchItems env b)
    (BufferCodec.stringEstimate b.length) 0 _ hf hn hs (Nat.zero_le _)
    (List.drop_zero _)).symm

set_option maxRecDepth 8192 in
/-- Witness for the amended claim C8: the two-class sample batch [5, 6]
    produces ["Foo", "Bar"] through both paths. -/
theorem c8_fallback_equals_batched_witness :
    fallbackNames Samples.sampleEnv [5, 6]
      = BufferCodec.readConsolidatedStringBuffer
          (BufferCodec.encode (batchItems Samples.sampleEnv [5, 6])).1
          (BufferCodec.encode (batchItems Samples.sampleEnv [5, 6])).2
          BufferCodec.trueKeep :=
  c8_fallback_equals_batched Samples.sampleEnv [5, 6]
    (by decide) (by decide) (by decide) (by decide)

set_option maxRecDepth 8192 in
/-- Counterexample to claim C8 as stated: in the overflow sample batch
    [1, 2, 3] (middle name 117 bytes, estimate 120) a successful batched
    evaluation yields ["A", "", "Q"] — the overflowed slot decodes to a
    spurious empty string — while the fallback yields the real names, so
    the fallback does NOT produce every item the batched evaluation would
    have produced. -/
theorem c8_overflow_phantom_item :
    ([] : Str) ∈ BufferCodec.readConsolidatedStringBuffer
        (BufferCodec.encode (batchItems Samples.sampleEnvOverflow [1, 2, 3])).1
        (BufferCodec.encode (batchItems Samples.sampleEnvOverflow [1, 2, 3])).2
        BufferCodec.trueKeep
    ∧ ([] : Str) ∉ fallbackNames Samples.sampleEnvOverflow [1, 2, 3] := by decide

end ObjcCls

namespace ObjcUtils

theorem space_not_word (c : Char) (h : isSpaceChar c = true) : isWordChar c = false := by
  rw [Bool.eq_false_iff]
  intro hw
  simp only [isSpaceChar, isWordChar, Bool.or_eq_true, Bool.and_eq_true,
    beq_iff_eq, decide_eq_true_eq] at h hw
  omega

theorem takeWhile_all (p : Char → Bool) :
    ∀ l : Str, (∀ x ∈ l, p x = true) → l.takeWhile p = l := by
  intro l
  induction l with
  | nil => intro _; rfl
  | cons c t ih =>
      intro h
      rw [List.takeWhile_cons, if_pos (h c (by simp))]
      rw [ih fun x hx => h x (by simp [hx])]

theorem drop_takeWhile_len (p : Char → Bool) :
    ∀ l : Str, l.drop (l.takeWhile p).length = l.dropWhile p := by
  intro l
  induction l with
  | nil => rfl
  | cons c t ih =>
      rw [List.takeWhile_cons, List.dropWhile_cons]
      by_cases h : p c = true
      · rw [if_pos h, if_pos h]
        simpa using ih
      · rw [if_neg h, if_neg h]
        rfl

theorem dropWhile_head_false (p : Char → Bool) :
    ∀ (l : Str) (c : Char) (t : Str), l.dropWhile p = c :: t → p c = false := by
  intro l
  induction l with
  | nil => intro c t h; cases h
  | cons a r ih =>
      intro c t h
      rw [List.dropWhile_cons] at h
      by_cases ha : p a = true
      · rw [if_pos ha] at h
        exact ih c t h
      · rw [if_neg ha] at h
        cases h
        exact Bool.eq_false_iff.mpr ha

theorem parseBody_complete (C W R : Str)
    (hC : C ≠ []) (hCw : ∀ c ∈ C, isWordChar c)
    (hW : W ≠ []) (hWs : ∀ c ∈ W, isSpaceChar c)
    (hR : R ≠ []) (hRnl : newlineChar ∉ R)
    (hRs : ∀ c t, R = c :: t → isSpaceChar c → t = []) :
    parseBody (C ++ W ++ R) = some (C, R) := by
  obtain ⟨w0, W', rfl⟩ : ∃ w0 W', W = w0 :: W' := by
    cases W with
    | nil => exact absurd rfl hW
    | cons a b => exact ⟨a, b, rfl⟩
  have hw0s : isSpaceChar w0 = true := hWs w0 (by simp)
  have hcls : (C ++ w0 :: W' ++ R).takeWhile isWordChar = C := by
    rw [List.append_assoc, List.cons_append]
    exact TypeEncoding.takeWhile_all_append isWordChar C w0 (W' ++ R)
      hCw (space_not_word w0 hw0s)
  have hdropC : (C ++ w0 :: W' ++ R).drop C.length = w0 :: W' ++ R := by
    rw [List.append_assoc]
    exact List.drop_left C (w0 :: W' ++ R)
  simp only [parseBody, hcls]
  rw [if_neg hC, hdropC]
  obtain ⟨r, R', rfl⟩ : ∃ r R', R = r :: R' := by
    cases R with
    | nil => exact absurd rfl hR
    | cons a b => exact ⟨a, b, rfl⟩
  by_cases hrs : isSpaceChar r = true
  · have hR' : R' = [] := hRs r R' rfl hrs
    subst hR'
    have hall : ∀ x ∈ w0 :: W' ++ [r], isSpaceChar x = true := by
      intro x hx
      rcases List.mem_append.mp hx with hx1 | hx2
      · exact hWs x hx1
      · rw [List.mem_singleton.mp hx2]
        exact hrs
    have hw : (w0 :: W' ++ [r]).takeWhile isSpaceChar = w0 :: W' ++ [r] :=
      takeWhile_all isSpaceChar _ hall
    rw [hw, if_neg (by simp), List.drop_length]
    rw [if_neg (by simp)]
    rw [List.getLast?_concat]
    show (if 2 ≤ (w0 :: W' ++ [r]).length ∧ r ≠ newlineChar
        then some (C, [r]) else none) = some (C, [r])
    rw [if_pos ⟨by simp only [List.length_cons, List.length_append,
      List.length_nil]; omega, fun he => by simp [he] at hRnl⟩]
  · have hw : (w0 :: W' ++ (r :: R')).takeWhile isSpaceChar = w0 :: W' := by
      exact TypeEncoding.takeWhile_all_append isSpaceChar (w0 :: W') r R'
        hWs (Bool.eq_false_iff.mpr hrs)
    rw [hw, if_neg (by simp)]
    rw [List.drop_left (w0 :: W') (r :: R')]
    rw [if_pos (by simp)]
    rw [if_neg ?hcont]
    case hcont =>
      intro hc
      exact hRnl (List.elem_iff.mp hc)

theorem parseBody_sound (body C R : Str)
    (h : parseBody body = some (C, R)) :
    ∃ W, body = C ++ W ++ R ∧ C ≠ [] ∧ (∀ c ∈ C, isWordChar c) ∧
      W ≠ [] ∧ (∀ c ∈ W, isSpaceChar c) ∧
      R ≠ [] ∧ newlineChar ∉ R ∧
      (∀ c t, R = c :: t → isSpaceChar c → t = []) := by
  simp only [parseBody] at h
  by_cases h1 : body.takeWhile isWordChar = []
  · rw [if_pos h1] at h; cases h
  rw [if_neg h1] at h
  by_cases h2 : (body.drop (body.takeWhile isWordChar).length).takeWhile isSpaceChar = []
  · rw [if_pos h2] at h; cases h
  rw [if_neg h2] at h
  set cls := body.takeWhile isWordChar with hclsdef
  set rest2 := body.drop cls.length with hrest2def
  set w := rest2.takeWhile isSpaceChar with hwdef
  set r0 := rest2.drop w.length with hr0def
  have hrest2dw : rest2 = body.dropWhile isWordChar := by
    rw [hrest2def, hclsdef, drop_takeWhile_len]
  have hbody : body = cls ++ rest2 := by
    rw [hclsdef, hrest2dw]
    exact (List.takeWhile_append_dropWhile isWordChar body).symm
  have hr0dw : r0 = rest2.dropWhile isSpaceChar := by
    rw [hr0def, hwdef, drop_takeWhile_len]
  have hrest2split : rest2 = w ++ r0 := by
    rw [hwdef, hr0dw]
    exact (List.takeWhile_append_dropWhile isSpaceChar rest2).symm
  have hclsw : ∀ c ∈ cls, isWordChar c = true := by
    rw [hclsdef]
    exact fun c hc => List.mem_takeWhile_imp hc
  have hws : ∀ c ∈ w, isSpaceChar c = true := by
    rw [hwdef]
    exact fun c hc => List.mem_takeWhile_imp hc
  by_cases h3 : r0 ≠ []
  · rw [if_pos h3] at h
    by_cases h4 : r0.contains newlineChar = true
    · rw [if_pos h4] at h; cases h
    rw [if_neg h4] at h
    rw [Option.some.injEq, Prod.mk.injEq] at h
    obtain ⟨hCe, hRe⟩ := h
    subst hCe hRe
    refine ⟨w, ?_, h1, hclsw, h2, hws, h3, ?_, ?_⟩
    · rw [hbody, hrest2split, List.append_assoc]
    · exact fun hm => h4 (List.elem_iff.mpr hm)
    · intro c t hct hcs
      have : isSpaceChar c = false :=
        dropWhile_head_false isSpaceChar rest2 c t (by rw [← hr0dw]; exact hct)
      rw [hcs] at this
      cases this
  · rw [if_neg h3] at h
    have hr0nil : r0 = [] := not_not.mp h3
    rcases hlast : rest2.getLast? with _ | c
    · rw [hlast] at h
      simp at h
    · rw [hlast] at h
      have h6 : (if 2 ≤ rest2.length ∧ c ≠ newlineChar
          then some (cls, [c]) else none) = some (C, R) := h
      by_cases h5 : 2 ≤ rest2.length ∧ c ≠ newlineChar
      · rw [if_pos h5] at h6
        rw [Option.some.injEq, Prod.mk.injEq] at h6
        obtain ⟨hCe, hRe⟩ := h6
        subst hCe hRe
        have hrw : rest2 = w := by
          rw [hrest2split, hr0nil, List.append_nil]
        have hrest2last : rest2.dropLast ++ [c] = rest2 :=
          List.dropLast_append_getLast? c (Option.mem_def.mpr hlast)
        refine ⟨rest2.dropLast, ?_, h1, hclsw, ?_, ?_, by simp, ?_, ?_⟩
        · rw [hbody, List.append_assoc, hrest2last]
        · intro hnil
          have hlen := congrArg List.length hnil
          simp only [List.length_dropLast, List.length_nil] at hlen
          omega
        · intro x hx
          have hx2 : x ∈ rest2 := (List.dropLast_sublist rest2).subset hx
          rw [hrw] at hx2
          exact hws x hx2
        · intro hm
          rw [List.mem_singleton] at hm
          exact h5.2 hm.symm
        · intro c' t hct _
          injection hct with e1 e2
          exact e2.symm
      · rw [if_neg h5] at h6; cases h6

theorem parseMethodSymbol_sound (s C R : Str)
    (h : parseMethodSymbol s = some (C, R)) : MethodSymbolDecomp s C R := by
  rcases s with _ | ⟨sign, _ | ⟨br, rest⟩⟩
  · simp [parseMethodSymbol] at h
  · simp [parseMethodSymbol] at h
  · simp only [parseMethodSymbol] at h
    by_cases hsb : ((sign == '+' || sign == '-') && br == ('[')) = true
    case neg => rw [if_neg hsb] at h; cases h
    rw [if_pos hsb] at h
    simp only [Bool.and_eq_true, Bool.or_eq_true, beq_iff_eq] at hsb
    obtain ⟨hsign, hbr⟩ := hsb
    subst hbr
    by_cases hnl : rest.getLast? = some newlineChar
    · rw [if_pos hnl] at h
      by_cases hcb : rest.dropLast.getLast? = some (']')
      case neg => rw [if_neg hcb] at h; cases h
      rw [if_pos hcb] at h
      obtain ⟨W, hbody, hC, hCw, hW, hWs, hR, hRnl, hRs⟩ := parseBody_sound _ _ _ h
      refine ⟨sign, W, [newlineChar], hsign, ?_, Or.inr rfl,
        hC, hCw, hW, hWs, hR, hRnl, hRs⟩
      have h1 : rest.dropLast.dropLast ++ [(']')] = rest.dropLast :=
        List.dropLast_append_getLast? _ (Option.mem_def.mpr hcb)
      have h2 : rest.dropLast ++ [newlineChar] = rest :=
        List.dropLast_append_getLast? _ (Option.mem_def.mpr hnl)
      rw [hbody] at h1
      rw [← h2, ← h1]
      simp
    · rw [if_neg hnl] at h
      by_cases hcb : rest.getLast? = some (']')
      case neg => rw [if_neg hcb] at h; cases h
      rw [if_pos hcb] at h
      obtain ⟨W, hbody, hC, hCw, hW, hWs, hR, hRnl, hRs⟩ := parseBody_sound _ _ _ h
      refine ⟨sign, W, [], hsign, ?_, Or.inl rfl,
        hC, hCw, hW, hWs, hR, hRnl, hRs⟩
      have h2 : rest.dropLast ++ [(']')] = rest :=
        List.dropLast_append_getLast? _ (Option.mem_def.mpr hcb)
      rw [← h2, hbody]

theorem parseMethodSymbol_complete (s C R : Str) (h : MethodSymbolDecomp s C R) :
    parseMethodSymbol s = some (C, R) := by
  obtain ⟨sign, W, tail, hsign, hs, htail, hC, hCw, hW, hWs, hR, hRnl, hRs⟩ := h
  subst hs
  simp only [parseMethodSymbol]
  rw [if_pos ?hsb]
  case hsb =>
    rcases hsign with h | h <;> simp [h]
  rcases htail with rfl | rfl
  · have hl : (C ++ W ++ R ++ (']') :: ([] : Str)).getLast? = some (']') :=
      List.getLast?_concat _
    have hninner : ¬((C ++ W ++ R ++ (']') :: ([] : Str)).getLast?
        = some newlineChar) := by
      rw [hl]
      decide
    rw [if_neg hninner, if_pos hl]
    have hd : (C ++ W ++ R ++ (']') :: ([] : Str)).dropLast = C ++ W ++ R :=
      List.dropLast_concat
    rw [hd]
    exact parseBody_complete C W R hC hCw hW hWs hR hRnl hRs
  · have hshape : C ++ W ++ R ++ (']') :: [newlineChar]
        = (C ++ W ++ R ++ [(']')]) ++ [newlineChar] := by
      simp
    rw [hshape]
    have hl : ((C ++ W ++ R ++ [(']')]) ++ [newlineChar]).getLast?
        = some newlineChar := List.getLast?_concat _
    rw [if_pos hl]
    have hd : ((C ++ W ++ R ++ [(']')]) ++ [newlineChar]).dropLast
        = C ++ W ++ R ++ [(']')] := List.dropLast_concat
    rw [hd]
    have hl2 : (C ++ W ++ R ++ [(']')]).getLast? = some (']') :=
      List.getLast?_concat _
    rw [if_pos hl2]
    have hd2 : (C ++ W ++ R ++ [(']')]).dropLast = C ++ W ++ R :=
      List.dropLast_concat
    rw [hd2]
    exact parseBody_complete C W R hC hCw hW hWs hR hRnl hRs

/-- Claim C5: a symbol name containing the forwarding-stub marker makes the
    final classification step of resolve_method_address report a failure
    with implementation address 0; otherwise the inherited-class extractor
    returns an ancestor class C exactly when the symbol decomposes as the
    regex match of a method symbol with class C and the requested selector,
    with C different from the requested class, and nothing in every other
    case. -/
theorem c5_method_classification :
    (∀ (imp : Nat) (req sel sn : Str), containsSubL msgForwardMarker sn = true →
        resolveStep5 imp req sel (some sn) = (0, none, true))
    ∧ (∀ (sym req sel C : Str),
        extractInheritedClass sym req sel = some C
          ↔ (MethodSymbolDecomp sym C sel ∧ C ≠ req)) := by
  constructor
  · intro imp req sel sn hm
    simp only [resolveStep5]
    rw [if_pos hm]
  · intro sym req sel C
    constructor
    · intro h
      rcases hp : parseMethodSymbol sym with _ | ⟨symC, symSel⟩
      · simp only [extractInheritedClass, hp] at h
        cases h
      · simp only [extractInheritedClass, hp] at h
        by_cases hne : symC ≠ req
        swap
        · rw [if_neg hne] at h; cases h
        rw [if_pos hne] at h
        by_cases hsel : symSel = sel
        swap
        · rw [if_neg hsel] at h; cases h
        rw [if_pos hsel] at h
        rw [Option.some.injEq] at h
        subst h
        subst hsel
        exact ⟨parseMethodSymbol_sound sym symC symSel hp, hne⟩
    · rintro ⟨hd, hne⟩
      have hp := parseMethodSymbol_complete sym C sel hd
      simp only [extractInheritedClass, hp]
      rw [if_pos hne]
      simp

theorem c5_method_classification_witness :
    resolveStep5 4096 (("MyClass").toList) (("hash").toList)
        (some (("_objc_msgForward").toList)) = (0, none, true)
    ∧ extractInheritedClass (("-[NSObject hash]").toList) (("MyClass").toList)
        (("hash").toList) = some (("NSObject").toList) := by
  constructor
  · exact c5_method_classification.1 4096 _ _ _ (by decide)
  · refine (c5_method_classification.2 _ _ _ _).mpr ⟨?_, by decide⟩
    refine ⟨'-', [' '], [], Or.inr rfl, by decide, Or.inl rfl, by decide,
      by decide, by decide, by decide, by decide, by decide, ?_⟩
    intro c t hct hcs
    have hh : c = 'h' := by
      have he : ("hash").toList = 'h' :: ['a', 's', 'h'] := by decide
      rw [he] at hct
      injection hct with h1 _
      exact h1.symm
    rw [hh] at hcs
    exact absurd hcs (by decide)

end ObjcUtils

namespace ObjcSel

theorem runSelBatches_ok (env : SelEnv)
    (hb : ∀ i, env.batchEvalOk i = true ∧ env.batchMallocNonzero i = true
        ∧ env.ptrReadOk i = true) :
    ∀ fuel l idx, l.length ≤ fuel →
      runSelBatches env idx (splitIntoBatchesF 50 fuel l)
        = l.filterMap (batchItemOpt env) := by
  intro fuel
  induction fuel with
  | zero =>
      intro l idx hl
      have hnil : l = [] := List.length_eq_zero.mp (Nat.le_zero.mp hl)
      subst hnil
      rfl
  | succ n ih =>
      intro l idx hl
      match l with
      | [] => rfl
      | x :: xs =>
          simp only [splitIntoBatchesF]
          rw [if_neg (by decide)]
          simp only [runSelBatches]
          obtain ⟨hbe, hbm, hbp⟩ := hb idx
          rw [hbe, hbm, hbp]
          rw [if_pos rfl, if_pos rfl, if_pos rfl]
          rw [ih ((x :: xs).drop 50) (idx + 1)
            (by simp only [List.length_drop, List.length_cons] at *; omega)]
          rw [← List.filterMap_append, List.take_append_drop]

theorem legacyLoop_ok (env : SelEnv) (pattern : Option Str)
    (he : ∀ i, env.elemEvalOk i = true) :
    ∀ l i, legacyLoop env pattern i l
      = l.filterMap (fun m =>
          if m = 0 then none
          else if env.selEvalOk m then
            match (env.selRaw m).map ObjcUtils.pyQuote with
            | none => none
            | some summary =>
                if summary ≠ [] then
                  let nm := ObjcUtils.unquote_string summary
                  if PatternMatch.matchesPatternSubstr nm pattern then some nm
                  else none
                else none
          else none) := by
  intro l
  induction l with
  | nil => intro i; rfl
  | cons m rest ih =>
      intro i
      simp only [legacyLoop, List.filterMap_cons]
      rw [he i, if_pos rfl, ih (i + 1)]
      by_cases hm0 : m = 0
      · simp [hm0]
      · rw [if_neg hm0, if_neg hm0]
        cases hse : env.selEvalOk m with
        | false => simp
        | true =>
            rw [if_pos rfl, if_pos rfl]
            rcases hraw : env.selRaw m with _ | s
            · simp
            · simp only [Option.map_some']
              by_cases hsm : ObjcUtils.pyQuote s ≠ []
              · rw [if_pos hsm, if_pos hsm]
                by_cases hpat : PatternMatch.matchesPatternSubstr
                    (ObjcUtils.unquote_string (ObjcUtils.pyQuote s)) pattern = true
                · rw [if_pos hpat, if_pos hpat]
                  rfl
                · rw [if_neg hpat, if_neg hpat]
                  rfl
              · rw [if_neg hsm, if_neg hsm]
                rfl

/-- Claim C10 (amended): when every remote call succeeds, the method list
    and every method pointer are non-null, and every selector name is
    non-empty, at most 255 bytes, and backslash-free, the batched
    `get_methods_optimized` returns exactly the selector names of the
    legacy per-item `get_methods`, in order. -/
theorem c10_optimized_refines_legacy (env : SelEnv)
    (hptr : env.methodListPtr ≠ 0)
    (h1 : env.countVarOk = true) (h2 : env.copyMethodListOk = true)
    (h3 : env.readCountOk = true) (h4 : env.bulkReadOk = true)
    (hbatch : ∀ i, env.batchEvalOk i = true ∧ env.batchMallocNonzero i = true
        ∧ env.ptrReadOk i = true)
    (helem : ∀ i, env.elemEvalOk i = true)
    (hsel : ∀ m ∈ env.methodPtrs, m ≠ 0 →
        env.selEvalOk m = true ∧ env.cstrReadOk m = true)
    (hnames : ∀ m ∈ env.methodPtrs, ∀ s, env.selRaw m = some s →
        s ≠ [] ∧ s.length ≤ 255 ∧ backslashChar ∉ s) :
    (get_methods_optimized env).map (fun t => t.1) = get_methods env none := by
  unfold get_methods_optimized get_methods splitIntoBatches
  rw [h1, h2, h3, h4]
  rw [if_neg (by simp), if_neg (by simp), if_neg (by simp)]
  by_cases hz : env.methodPtrs.length = 0
  · have hnil : env.methodPtrs = [] := List.length_eq_zero.mp hz
    rw [if_pos (Or.inl hz), hnil]
    rfl
  · rw [if_neg (by rintro (h | h); exacts [hz h, hptr h]), if_neg (by simp)]
    rw [runSelBatches_ok env hbatch env.methodPtrs.length env.methodPtrs 0 le_rfl]
    rw [legacyLoop_ok env none helem env.methodPtrs 0]
    rw [List.map_filterMap]
    refine List.filterMap_congr ?_
    intro m hm
    by_cases hm0 : m = 0
    · simp [batchItemOpt, hm0]
    · obtain ⟨hse, hcs⟩ := hsel m hm hm0
      rcases hraw : env.selRaw m with _ | s
      · simp [batchItemOpt, hm0, hraw, hse]
      · obtain ⟨hne, hlen, hbs⟩ := hnames m hm s hraw
        have htake : s.take 255 = s := List.take_of_length_le hlen
        have huq : ObjcUtils.unquote_string (ObjcUtils.pyQuote s) = s :=
          ObjcUtils.unquote_pyQuote s hbs
        have hqe : ObjcUtils.pyQuote s ≠ [] := by
          simp [ObjcUtils.pyQuote]
        simp only [batchItemOpt, if_neg hm0, hraw, hse, hcs, if_pos rfl,
          htake, Option.map_some', huq, hqe]
        rw [if_pos hne, if_pos hqe]
        simp [PatternMatch.matchesPatternSubstr]

theorem c10_optimized_refines_legacy_witness :
    (get_methods_optimized Samples.sampleSelEnv).map (fun t => t.1)
      = get_methods Samples.sampleSelEnv none :=
  c10_optimized_refines_legacy Samples.sampleSelEnv (by decide) rfl rfl rfl rfl
    (fun _ => ⟨rfl, rfl, rfl⟩) (fun _ => rfl)
    (fun _ _ _ => ⟨rfl, rfl⟩)
    (by
      intro m hm s hs
      fin_cases hm <;> simp [Samples.sampleSelEnv] at hs <;>
        (subst hs; exact ⟨by decide, by decide, by decide⟩))

/-- On an empty selector name (all remote calls succeeding) the optimized
    enumerator silently drops the method while the legacy one keeps an empty
    string, so the unconditional refinement of the two fails. -/
theorem c10_empty_name_breaks_refinement :
    (get_methods_optimized Samples.sampleSelEnvEmptyName).map (fun t => t.1)
        = ([] : List Str)
      ∧ get_methods Samples.sampleSelEnvEmptyName none = [([] : Str)] := by
  constructor
  · rfl
  · rfl

end ObjcSel

end LldbObjc
